import Mathlib

/-!
Shallow embedding of the Pixel-Plex block optimizer
(`src/app/welcome/optimize.tsx`) and proofs about its specification.

Numbers are modelled as `ℚ` (the source operates on JS numbers; every
arithmetic step of the optimizer is rational).  JS `Map`s keyed by the
packed state string are modelled as insertion-ordered association lists
keyed by the corresponding tuple of components; JS 32-bit bitwise
operations are modelled explicitly.  A run that would throw a `TypeError`
in JS (indexing the bucket array outside `0..capacity`) is modelled by an
explicit `crash` outcome, distinct from the `null` (`NoSolution`) return.
-/

/-- `x || 0` on an optional numeric field. -/
def orZero (o : Option ℚ) : ℚ := o.getD 0

/-- JS truthiness of an optional numeric field (`undefined` and `0` are falsy). -/
def truthy (o : Option ℚ) : Bool :=
  match o with
  | some q => q ≠ 0
  | none => false

/-- `buildingDef.size || 1`: absent or zero size defaults to 1. -/
def sizeOrOne (o : Option ℚ) : ℚ :=
  match o with
  | some q => if q = 0 then 1 else q
  | none => 1

/-- 32-bit signed wraparound, as JS bitwise operators apply to their operands. -/
def toInt32 (n : Int) : Int := (n + 2 ^ 31) % 2 ^ 32 - 2 ^ 31

/-- The unsigned 32-bit representative of an integer. -/
def toUInt32n (n : Int) : Nat := (n % 2 ^ 32).toNat

/-- JS `1 << k` (shift counts are taken mod 32, result is a signed 32-bit value). -/
def jsShl1 (k : Nat) : Int := toInt32 (2 ^ (k % 32))

/-- Bitwise OR of the low `fuel` bits of two naturals. -/
def orBits : Nat → Nat → Nat → Nat
  | 0, _, _ => 0
  | f + 1, a, b =>
    (if a % 2 = 1 ∨ b % 2 = 1 then 1 else 0) + 2 * orBits f (a / 2) (b / 2)

/-- JS `a | b` on 32-bit signed integers. -/
def jsOr32 (a b : Int) : Int := toInt32 (Int.ofNat (orBits 32 (toUInt32n a) (toUInt32n b)))

/-- JS `Math.round` on a rational: round half toward positive infinity. -/
def jsRound (q : ℚ) : Int := Int.fdiv (q + 1/2).num (q + 1/2).den

/-- JS `Math.ceil` on a rational. -/
def jsCeil (q : ℚ) : Int := -(Int.fdiv (-q).num (-q).den)

/-- JS `Math.floor` on a rational. -/
def jsFloor (q : ℚ) : Int := Int.fdiv q.num q.den

/-- Stable insertion of `x` into `l`: `x` goes in front of the first element
`y` that does not satisfy `lt y x`.  This reproduces the result of a stable
sort (JS `Array.prototype.sort`) with strict "comes before" relation `lt`. -/
def sInsert (lt : α → α → Bool) (x : α) : List α → List α
  | [] => [x]
  | y :: ys => if lt y x then y :: sInsert lt x ys else x :: y :: ys

/-- Stable sort by the strict "comes before" relation `lt`. -/
def sSort (lt : α → α → Bool) : List α → List α
  | [] => []
  | x :: xs => sInsert lt x (sSort lt xs)

/-- First-occurrence-order deduplication, as `Array.from(new Set(xs))`. -/
def dedupFirst (l : List String) : List String :=
  l.foldl (fun acc x => if x ∈ acc then acc else acc ++ [x]) []

/-- A `ResourceCost` record; a missing axis is `none` (it reads as 0 through
`|| 0`, but presence matters for `Object.keys(upCosts).length > 0`). -/
structure ResourceCost where
  money : Option ℚ := none
  wood : Option ℚ := none
  cement : Option ℚ := none
  steel : Option ℚ := none
  deriving DecidableEq, Repr

/-- `Object.keys(c).length > 0` for a `ResourceCost` literal. -/
def ResourceCost.hasKeys (c : ResourceCost) : Bool :=
  c.money.isSome || c.wood.isSome || c.cement.isSome || c.steel.isSome

/-- A `storageCapacity`/`capacity` value: scalar number or resource object. -/
inductive StorageVal where
  | num (q : ℚ)
  | obj (rc : ResourceCost)
  deriving DecidableEq, Repr

/-- `typeof v === "object"` for a `StorageVal`. -/
def StorageVal.isObj : StorageVal → Bool
  | .num _ => false
  | .obj _ => true

structure BuildingUpgrade where
  level : ℚ
  income : Option ℚ := none
  additionalIncome : Option ℚ := none
  employees : Option ℚ := none
  peopleCapacity : Option ℚ := none
  storageCapacity : Option StorageVal := none
  capacity : Option StorageVal := none
  mandatory : Bool := false
  cost : Option ResourceCost := none
  prefers : Option (List String) := none
  deriving DecidableEq, Repr

structure BuildingDefinition where
  baseIncome : Option ℚ := none
  size : Option ℚ := none
  employees : Option ℚ := none
  peopleCapacity : Option ℚ := none
  storageCapacity : Option StorageVal := none
  capacity : Option StorageVal := none
  mandatory : Bool := false
  baseCost : Option ResourceCost := none
  prefers : Option (List String) := none
  upgrades : Option (List BuildingUpgrade) := none
  deriving DecidableEq, Repr

/-- The catalog: `{buildingTypes: {typeName → {buildingName → definition}}}`,
object properties modelled as insertion-ordered association lists. -/
structure BuildingDefinitions where
  buildingTypes : List (String × List (String × BuildingDefinition))
  deriving DecidableEq, Repr

inductive WorkerType where
  | employees
  | residents
  | none
  deriving DecidableEq, Repr

structure Variant where
  type : String
  name : String
  level : ℚ
  size : ℚ
  income : ℚ
  capacity : ℚ
  storageCapacity : StorageVal
  mandatory : Bool
  costs : ResourceCost
  workerType : WorkerType
  prefers : Option (List String)
  deriving DecidableEq, Repr

/-- `isStorageBuilding` / the transition's `isStorageVariant` test:
`v.storageCapacity` truthy, of object type, and `workerType === null`.
(A scalar `0` storage is falsy, a non-zero scalar fails the `typeof` test,
so the test is exactly "object-shaped storage and no worker kind".) -/
def isStorageBuilding (v : Variant) : Bool :=
  v.storageCapacity.isObj && v.workerType = WorkerType.none

/-- The upgrade loop of `buildVariantsFromDefinitions` (lines 159–195):
walks the level-sorted upgrades carrying the accumulated income and the
current worker capacity; storage, prefers and costs fall back to the base
values, not to the previous upgrade. -/
def expandUpgrades (typeName buildingName : String) (d : BuildingDefinition)
    (baseSize : ℚ) (baseStorage : StorageVal) (basePrefers : Option (List String))
    (baseCosts : ResourceCost) :
    List BuildingUpgrade → ℚ → ℚ → List Variant
  | [], _, _ => []
  | up :: rest, accIncome, curWorkers =>
    let accIncome' : ℚ :=
      match up.income with
      | some a => a
      | none => accIncome + orZero up.additionalIncome
    let w1 : ℚ := match up.employees with | some e => e | none => curWorkers
    let curWorkers' : ℚ := match up.peopleCapacity with | some p => p | none => w1
    let s1 : StorageVal :=
      match up.storageCapacity with | some (.num q) => .num q | _ => baseStorage
    let s2 : StorageVal :=
      match up.capacity with | some (.num q) => .num q | _ => s1
    let upPrefers : Option (List String) :=
      match up.prefers with | some p => some p | none => basePrefers
    let upCosts : ResourceCost := up.cost.getD {}
    let finalCosts : ResourceCost := if upCosts.hasKeys then upCosts else baseCosts
    let wt : WorkerType :=
      if truthy up.employees then .employees
      else if truthy up.peopleCapacity then .residents
      else if truthy d.employees then .employees
      else if truthy d.peopleCapacity then .residents
      else .none
    { type := typeName, name := buildingName, level := up.level, size := baseSize,
      income := accIncome', capacity := curWorkers', storageCapacity := s2,
      mandatory := up.mandatory || d.mandatory, costs := finalCosts,
      workerType := wt, prefers := upPrefers } ::
      expandUpgrades typeName buildingName d baseSize baseStorage basePrefers
        baseCosts rest accIncome' curWorkers'

/-- Expansion of a single building definition into its level-1 variant
followed by one variant per upgrade (in ascending level order). -/
def expandBuilding (typeName buildingName : String) (d : BuildingDefinition) :
    List Variant :=
  let baseIncome := orZero d.baseIncome
  let baseSize := sizeOrOne d.size
  let baseWorkers := d.employees.getD (d.peopleCapacity.getD 0)
  let baseStorage := d.storageCapacity.getD (d.capacity.getD (.num 0))
  let basePrefers := d.prefers
  let baseCosts := d.baseCost.getD {}
  let lvl1 : Variant :=
    { type := typeName, name := buildingName, level := 1, size := baseSize,
      income := baseIncome, capacity := baseWorkers, storageCapacity := baseStorage,
      mandatory := d.mandatory, costs := baseCosts,
      workerType :=
        if truthy d.employees then .employees
        else if truthy d.peopleCapacity then .residents
        else .none,
      prefers := basePrefers }
  let sortedUpgrades := sSort (fun a b => a.level < b.level) (d.upgrades.getD [])
  lvl1 :: expandUpgrades typeName buildingName d baseSize baseStorage basePrefers
    baseCosts sortedUpgrades baseIncome baseWorkers

/-- `buildVariantsFromDefinitions` (lines 130–200). -/
def buildVariantsFromDefinitions (defs : BuildingDefinitions) : List Variant :=
  defs.buildingTypes.foldr
    (fun tg acc => tg.2.foldr (fun bd acc' => expandBuilding tg.1 bd.1 bd.2 ++ acc') acc)
    []

/-- The catalog flattened to `(typeName, buildingName, definition)` triples,
in catalog order. -/
def flatBuildings (defs : BuildingDefinitions) :
    List (String × String × BuildingDefinition) :=
  defs.buildingTypes.flatMap (fun tg => tg.2.map (fun bd => (tg.1, bd.1, bd.2)))

/-- Every building name in the catalog, in catalog order. -/
def catalogNames (defs : BuildingDefinitions) : List String :=
  (flatBuildings defs).map (fun p => p.2.1)

/-! ## DP machinery of `optimizeBlockIncomeFromDefinitions` (lines 206–508) -/

/-- Generic insertion-ordered association list update, as JS `Map.prototype.set`
(an existing key keeps its position, a new key is appended). -/
def alSet [DecidableEq K] (m : List (K × V)) (k : K) (v : V) : List (K × V) :=
  if (m.find? (fun e => e.1 = k)).isSome then
    m.map (fun e => if e.1 = k then (k, v) else e)
  else m ++ [(k, v)]

/-- JS `Map.prototype.get`. -/
def alGet? [DecidableEq K] (m : List (K × V)) (k : K) : Option V :=
  (m.find? (fun e => e.1 = k)).map (·.2)

/-- `map.get(k) || 0`. -/
def alGetQ [DecidableEq K] (m : List (K × ℚ)) (k : K) : ℚ := (alGet? m k).getD 0

/-- `map.set(k, (map.get(k) || 0) + x)`. -/
def alAdd [DecidableEq K] (m : List (K × ℚ)) (k : K) (x : ℚ) : List (K × ℚ) :=
  alSet m k (alGetQ m k + x)

/-- A complete resource quadruple (the default base resources and every
`startingResources` record the driver passes have all four axes). -/
structure Res4 where
  money : ℚ
  wood : ℚ
  cement : ℚ
  steel : ℚ
  deriving DecidableEq, Repr

/-- `OPTIMIZER_CONFIG.DEFAULT_BASE_RESOURCES`. -/
def DEFAULT_BASE_RESOURCES : Res4 := ⟨1000, 100, 100, 100⟩

structure OptimizeOpts where
  beamWidth : Option Nat := none
  startingResources : Option Res4 := none

/-- The packed DP state key
`${nr}:${money}:${wood}:${cement}:${steel}:${mask}:${countsStr}`,
abstracted to the tuple of its components. -/
structure DPKey where
  r : ℚ
  money : ℚ
  wood : ℚ
  cement : ℚ
  steel : ℚ
  mask : Int
  counts : List Nat
  deriving DecidableEq, Repr

structure DPNode where
  prevKey : Option DPKey
  prevW : Int
  variantIndex : Int
  incomeNeutral : ℚ
  houseBaseIncome : ℚ
  totalHouseCapacity : ℚ
  businessIncomeBaseArr : List ℚ
  businessCapacityArr : List ℚ
  countsArr : List Nat
  totalStorage : ℚ
  total : Int
  preferenceCapacity : List ℚ
  deriving DecidableEq, Repr

/-- One DP bucket: `Map<string, node>` in insertion order. -/
abbrev Bucket := List (DPKey × DPNode)

/-- The per-run context computed before the DP loop. -/
structure DPCtx where
  variants : List Variant
  capacity : Nat
  miscNames : List String
  requiredMask : Int
  businessNames : List String
  nBusinesses : Nat
  baseResources : Res4
  maxResidents : Int
  maxResourceUpper : Res4
  beamWidth : Nat

/-- `businessIndex[name]` / `miscIndex[name]`: index into the deduplicated
name list, `undefined` when the name is absent. -/
def bizIndex (names : List String) (n : String) : Option Nat :=
  if n ∈ names then some (names.indexOf n) else none

/-- Per-unit-size storage contribution of a variant on one axis. -/
def storageAxis (v : Variant) (axis : ResourceCost → Option ℚ) : ℚ :=
  match v.storageCapacity with
  | .obj rc => orZero (axis rc)
  | .num _ => 0

/-- `storageVariants.reduce((m, v) => Math.max(m, (sc.axis || 0) / Math.max(1, v.size)), 0)`. -/
def maxAxisStorage (storageVariants : List Variant) (axis : ResourceCost → Option ℚ) : ℚ :=
  storageVariants.foldl (fun m v => max m (storageAxis v axis / max 1 v.size)) 0

def mkCtx (defs : BuildingDefinitions) (sizeLimit : ℚ) (opts : OptimizeOpts) : DPCtx :=
  let variants := buildVariantsFromDefinitions defs
  let capacity := (max 0 (jsFloor sizeLimit)).toNat
  let miscNames := dedupFirst
    ((variants.filter (fun v => v.type = "misc" && v.mandatory)).map (·.name))
  let requiredMask : Int := if miscNames.length > 0 then jsShl1 miscNames.length - 1 else 0
  let businessNames := dedupFirst
    ((variants.filter (fun v => v.workerType = WorkerType.employees)).map (·.name))
  let baseResources := opts.startingResources.getD DEFAULT_BASE_RESOURCES
  let houseVariants := variants.filter (fun v => v.workerType = WorkerType.residents)
  let maxPeoplePerSize := houseVariants.foldl (fun m v => max m (v.capacity / max 1 v.size)) 0
  let maxResidents : Int := min 1000 (jsCeil ((capacity : ℚ) * maxPeoplePerSize))
  let storageVariants := variants.filter isStorageBuilding
  let upper : Res4 :=
    { money := min 100000 (baseResources.money + (jsCeil ((capacity : ℚ) * maxAxisStorage storageVariants (·.money)) : ℚ)),
      wood := min 100000 (baseResources.wood + (jsCeil ((capacity : ℚ) * maxAxisStorage storageVariants (·.wood)) : ℚ)),
      cement := min 100000 (baseResources.cement + (jsCeil ((capacity : ℚ) * maxAxisStorage storageVariants (·.cement)) : ℚ)),
      steel := min 100000 (baseResources.steel + (jsCeil ((capacity : ℚ) * maxAxisStorage storageVariants (·.steel)) : ℚ)) }
  { variants := variants, capacity := capacity, miscNames := miscNames,
    requiredMask := requiredMask, businessNames := businessNames,
    nBusinesses := businessNames.length, baseResources := baseResources,
    maxResidents := maxResidents, maxResourceUpper := upper,
    beamWidth := opts.beamWidth.getD 400 }

def initKey (ctx : DPCtx) : DPKey :=
  { r := 0, money := ctx.baseResources.money, wood := ctx.baseResources.wood,
    cement := ctx.baseResources.cement, steel := ctx.baseResources.steel,
    mask := 0, counts := List.replicate ctx.nBusinesses 0 }

def initNode (ctx : DPCtx) : DPNode :=
  { prevKey := none, prevW := -1, variantIndex := -1, incomeNeutral := 0,
    houseBaseIncome := 0, totalHouseCapacity := 0,
    businessIncomeBaseArr := List.replicate ctx.nBusinesses 0,
    businessCapacityArr := List.replicate ctx.nBusinesses 0,
    countsArr := List.replicate ctx.nBusinesses 0, totalStorage := 0, total := 0,
    preferenceCapacity := List.replicate ctx.nBusinesses 0 }

def dpInit (ctx : DPCtx) : List Bucket :=
  [(initKey ctx, initNode ctx)] :: List.replicate ctx.capacity []

/-- Lexicographic pruning score: raw score plus `1e9` when the state's mask
component (`split(":")[5]`) equals the required mask. -/
def bonusScore (requiredMask : Int) (e : DPKey × DPNode) : Int :=
  e.2.total + (if requiredMask ≠ 0 ∧ e.1.mask = requiredMask then 10 ^ 9 else 0)

/-- `pruneMapToBeam` (lines 290–306). -/
def pruneMapToBeam (requiredMask : Int) (m : Bucket) (beam : Nat) : Bucket :=
  if m.length ≤ beam then m
  else
    let arr := sSort (fun a b => bonusScore requiredMask b < bonusScore requiredMask a) m
    let toKeep := (arr.take beam).map (·.1)
    m.filter (fun e => e.1 ∈ toKeep)

/-- The staffing prefeasibility filter (lines 351–362), evaluated for every
candidate variant; `false` means the transition is not rejected by staffing. -/
def staffingRejects (businessNames : List String)
    (businessCapacityArr preferenceCapacityArr : List ℚ)
    (totalHouseCapacity : ℚ) (v : Variant) : Bool :=
  if v.workerType = WorkerType.employees && !v.mandatory then
    let newBusinessCapacity := businessCapacityArr.foldl (· + ·) 0 + v.capacity
    let availableForThisBiz :=
      match bizIndex businessNames v.name with
      | some j => preferenceCapacityArr.getD j 0
      | none => 0
    let currentlyUsedForThisBiz :=
      match bizIndex businessNames v.name with
      | some j => businessCapacityArr.getD j 0
      | none => 0
    let wouldHaveStaffing := availableForThisBiz ≥ currentlyUsedForThisBiz + v.capacity
    decide (newBusinessCapacity > 0 ∧
      (totalHouseCapacity / newBusinessCapacity < 9/10 ∨ ¬wouldHaveStaffing))
  else false

structure EstItem where
  incomePerWorker : ℚ
  capacity : ℚ
  count : Nat
  businessIndex : Nat
  deriving DecidableEq, Repr

/-- The DP loop state: the bucket array, the set of bucket indices updated in
the current pass (in insertion order), and whether a JS `TypeError` occurred
(indexing `dpMaps` outside `0..capacity`). -/
structure PassState where
  dp : List Bucket
  updated : List Nat
  crashed : Bool

def markUpdated (u : List Nat) (w : Nat) : List Nat := if w ∈ u then u else u ++ [w]

/-- Outcome of the state-independent part of one transition (lines 332–486):
either the variant is filtered out, or indexing `dpMaps[nw]` would throw, or
a successor `(bucket, key, node)` is proposed (the node carrying the score
compared against any existing entry). -/
inductive TransCand where
  | skip
  | crash
  | cand (nw : Nat) (key : DPKey) (node : DPNode)
  deriving DecidableEq, Repr

/-- Aggregate updates, estimator and successor key/node of one transition
(lines 364–502): the heavy, purely arithmetic part, computed once the
feasibility filters have passed. -/
def succState (ctx : DPCtx) (w : Nat) (key : DPKey) (node : DPNode)
    (i : Nat) (v : Variant) : DPKey × DPNode :=
  let nw : ℚ := (w : ℚ) + v.size
  let isStorageVariant := isStorageBuilding v
  let sc : ResourceCost :=
    if isStorageVariant then
      match v.storageCapacity with | .obj rc => rc | .num _ => {}
    else {}
  let newMoney := max 0 (min ctx.maxResourceUpper.money (key.money + orZero sc.money))
  let newWood := max 0 (min ctx.maxResourceUpper.wood (key.wood + orZero sc.wood))
  let newCement := max 0 (min ctx.maxResourceUpper.cement (key.cement + orZero sc.cement))
  let newSteel := max 0 (min ctx.maxResourceUpper.steel (key.steel + orZero sc.steel))
  let willBeMask : Int :=
    if v.type = "misc" then
      match bizIndex ctx.miscNames v.name with
      | some idx => jsShl1 idx
      | none => 0
    else 0
  let n := ctx.nBusinesses
  let bi := bizIndex ctx.businessNames v.name
  let countsNext :=
    if v.workerType = WorkerType.employees then
      match bi with
      | some j => node.countsArr.set j (node.countsArr.getD j 0 + 1)
      | none => node.countsArr
    else node.countsArr
  let businessIncomeBaseNext :=
    if v.workerType = WorkerType.employees then
      match bi with
      | some j => node.businessIncomeBaseArr.set j (node.businessIncomeBaseArr.getD j 0 + v.income)
      | none => node.businessIncomeBaseArr
    else node.businessIncomeBaseArr
  let businessCapacityNext :=
    if v.workerType = WorkerType.employees then
      match bi with
      | some j => node.businessCapacityArr.set j (node.businessCapacityArr.getD j 0 + v.capacity)
      | none => node.businessCapacityArr
    else node.businessCapacityArr
  let preferenceCapacityNext :=
    if v.workerType = WorkerType.residents then
      match v.prefers with
      | some ps =>
        if ps.length > 0 then
          ps.foldl (fun pref p =>
            match bizIndex ctx.businessNames p with
            | some j => pref.set j (pref.getD j 0 + v.capacity)
            | none => pref) node.preferenceCapacity
        else node.preferenceCapacity.map (· + v.capacity)
      | none => node.preferenceCapacity.map (· + v.capacity)
    else node.preferenceCapacity
  let incomeNeutralNext :=
    if v.workerType = WorkerType.none then node.incomeNeutral + v.income
    else node.incomeNeutral
  let houseBaseIncomeNext :=
    if v.workerType = WorkerType.residents then node.houseBaseIncome + v.income
    else node.houseBaseIncome
  let totalHouseCapacityNext :=
    if v.workerType = WorkerType.residents then node.totalHouseCapacity + v.capacity
    else node.totalHouseCapacity
  let totalStorageNext := node.totalStorage
  let items : List EstItem :=
    (List.range n).foldr (fun j acc =>
      let totalIncomeBase := businessIncomeBaseNext.getD j 0
      let totalCap := businessCapacityNext.getD j 0
      let availableResidents := preferenceCapacityNext.getD j 0
      let cnt := countsNext.getD j 0
      let duplicatePenalty : ℚ := if cnt > 2 then (1/10) * ((cnt : ℚ) - 2) else 0
      let penaltyMultiplier := max 0 (1 - duplicatePenalty)
      let effectiveStaffing := min totalCap availableResidents
      let incomePerWorker := if totalCap > 0 then totalIncomeBase / totalCap * penaltyMultiplier else 0
      if totalCap > 0 ∧ effectiveStaffing > 0 then
        { incomePerWorker := incomePerWorker, capacity := effectiveStaffing,
          count := cnt, businessIndex := j } :: acc
      else acc) []
  let sorted := sSort (fun a b => decide (b.incomePerWorker < a.incomePerWorker)) items
  let greedy :=
    sorted.foldl (fun (acc : List ℚ × ℚ × ℚ) it =>
      let (used, est, alloc) := acc
      let availableForBiz := preferenceCapacityNext.getD it.businessIndex 0
      let alreadyUsed := used.getD it.businessIndex 0
      let canStillAllocate := min (availableForBiz - alreadyUsed) it.capacity
      if canStillAllocate > 0 then
        (used.set it.businessIndex (alreadyUsed + canStillAllocate),
         est + canStillAllocate * it.incomePerWorker, alloc + canStillAllocate)
      else acc) (List.replicate n 0, 0, 0)
  let usedCapacity := greedy.1
  let businessIncomeEst := greedy.2.1
  let totalAllocatedEst := greedy.2.2
  let under :=
    (List.range n).foldl (fun (acc : ℚ × ℚ × ℚ) j =>
      let totalCap := businessCapacityNext.getD j 0
      let totalIncome := businessIncomeBaseNext.getD j 0
      let staffed := usedCapacity.getD j 0
      (acc.1 + max 0 (totalCap - staffed), acc.2.1 + totalCap, acc.2.2 + totalIncome))
      (0, 0, 0)
  let totalUnstaffedCapacity := under.1
  let totalBusinessCapacity := under.2.1
  let totalBusinessIncome := under.2.2
  let potentialAvgIncomePerWorker :=
    if totalBusinessCapacity > 0 then totalBusinessIncome / totalBusinessCapacity else 15
  let understaffingPenalty := totalUnstaffedCapacity * potentialAvgIncomePerWorker
  let houseEfficiencyEst :=
    if totalHouseCapacityNext > 0 then totalAllocatedEst / totalHouseCapacityNext else 1
  let scaledHouseIncomeEst := houseBaseIncomeNext * houseEfficiencyEst
  let freeSpace := (ctx.capacity : ℚ) - nw
  let spaceEfficiencyBonus := freeSpace * (1/10)
  let storagePenalty : ℚ := if isStorageVariant && !v.mandatory then 0 else 0
  let totalEst := jsRound (businessIncomeEst + scaledHouseIncomeEst + incomeNeutralNext
    - understaffingPenalty + spaceEfficiencyBonus - storagePenalty)
  let maskNew := jsOr32 key.mask willBeMask
  let nr : ℚ := min (ctx.maxResidents : ℚ) (max 0 (totalHouseCapacityNext - totalAllocatedEst))
  let newKey : DPKey :=
    { r := nr, money := newMoney, wood := newWood, cement := newCement,
      steel := newSteel, mask := maskNew, counts := countsNext }
  let newNode : DPNode :=
    { prevKey := some key, prevW := (w : Int), variantIndex := (i : Int),
      incomeNeutral := incomeNeutralNext, houseBaseIncome := houseBaseIncomeNext,
      totalHouseCapacity := totalHouseCapacityNext,
      businessIncomeBaseArr := businessIncomeBaseNext,
      businessCapacityArr := businessCapacityNext, countsArr := countsNext,
      totalStorage := totalStorageNext, total := totalEst,
      preferenceCapacity := preferenceCapacityNext }
  (newKey, newNode)

/-- Candidate transition for a single `(state, variant)` pair: the
feasibility filters of lines 332–362, the `dpMaps[nw]` indexing (a crash
when `nw` is not a valid bucket index), and the proposed successor. -/
def transCandidate (ctx : DPCtx) (w : Nat) (key : DPKey) (node : DPNode)
    (i : Nat) (v : Variant) : TransCand :=
  let nw : ℚ := (w : ℚ) + v.size
  if nw > (ctx.capacity : ℚ) then .skip else
  if !isStorageBuilding v &&
      (key.money < orZero v.costs.money ∨ key.wood < orZero v.costs.wood ∨
       key.cement < orZero v.costs.cement ∨ key.steel < orZero v.costs.steel) then .skip else
  if staffingRejects ctx.businessNames node.businessCapacityArr
      node.preferenceCapacity node.totalHouseCapacity v then .skip else
  if nw < 0 ∨ ¬(nw.den = 1) then .crash else
  .cand nw.num.toNat (succState ctx w key node i v).1 (succState ctx w key node i v).2

/-- One transition applied to the shared bucket array (lines 487–504): a
proposed successor replaces an existing entry of the same key only when its
score strictly exceeds the stored one. -/
def applyVariant (ctx : DPCtx) (w : Nat) (key : DPKey) (node : DPNode)
    (st : PassState) (i : Nat) (v : Variant) : PassState :=
  if st.crashed then st else
  match transCandidate ctx w key node i v with
  | .skip => st
  | .crash => { st with crashed := true }
  | .cand nwNat newKey newNode =>
    let doInsert : Bool :=
      match alGet? (st.dp.getD nwNat []) newKey with
      | some existing => decide (newNode.total > existing.total)
      | none => true
    if doInsert then
      { st with
        dp := st.dp.set nwNat (alSet (st.dp.getD nwNat []) newKey newNode)
        updated := markUpdated st.updated nwNat }
    else st

/-- Process every live state of `bucket[w]` against every variant. -/
def runPass (ctx : DPCtx) (dp : List Bucket) (w : Nat) : PassState :=
  (dp.getD w []).foldl (fun st e =>
    ctx.variants.enum.foldl (fun st2 iv => applyVariant ctx w e.1 e.2 st2 iv.1 iv.2) st)
    { dp := dp, updated := [], crashed := false }

/-- `for (const idx of updatedIndices) pruneMapToBeam(dpMaps[idx], BEAM_WIDTH)`. -/
def pruneUpdated (ctx : DPCtx) (st : PassState) : List Bucket :=
  st.updated.foldl (fun d idx =>
    d.set idx (pruneMapToBeam ctx.requiredMask (d.getD idx []) ctx.beamWidth)) st.dp

/-- The outer loop `for (w = 0; w <= capacity; w++)`, starting at `w` with
`remaining` passes left; `none` models a thrown `TypeError`. -/
def runFrom (ctx : DPCtx) (dp : List Bucket) (w remaining : Nat) :
    Option (List Bucket) :=
  match remaining with
  | 0 => some dp
  | r + 1 =>
    let st := runPass ctx dp w
    if st.crashed then none
    else runFrom ctx (pruneUpdated ctx st) (w + 1) r

def runDP (ctx : DPCtx) : Option (List Bucket) :=
  runFrom ctx (dpInit ctx) 0 (ctx.capacity + 1)

/-! ## Selection, back-reconstruction, forward simulator (lines 510–748) -/

/-- `t > best` where `best` starts at `Number.NEGATIVE_INFINITY`. -/
def gtNegInf (t : Int) (o : Option Int) : Bool :=
  match o with
  | some b => decide (t > b)
  | none => true

structure BestAcc where
  bestW : Nat
  bestKey : Option DPKey
  bestValue : Option Int
  bestWithAllW : Int
  bestWithAllKey : Option DPKey
  bestWithAllValue : Option Int

/-- The terminal-state scan (lines 513–541).  The source splits the packed
key and reads `parts[1]` as the "available capacity" and `parts[2]` as the
mask; in the 7-component key those positions hold the money and the wood
components respectively. -/
def selectBest (ctx : DPCtx) (dp : List Bucket) : BestAcc :=
  (List.range (ctx.capacity + 1)).foldl (fun acc w =>
    (dp.getD w []).foldl (fun acc1 e =>
      let capAvail := e.1.money
      let maskVal := e.1.wood
      if capAvail < 0 then acc1
      else
        let acc2 :=
          if ctx.requiredMask ≠ 0 ∧ maskVal = (ctx.requiredMask : ℚ) ∧
              gtNegInf e.2.total acc1.bestWithAllValue then
            { acc1 with
              bestWithAllValue := some e.2.total
              bestWithAllW := Int.ofNat w
              bestWithAllKey := some e.1 }
          else acc1
        if gtNegInf e.2.total acc2.bestValue then
          { acc2 with
            bestValue := some e.2.total
            bestW := w
            bestKey := some e.1 }
        else acc2) acc)
    { bestW := 0
      bestKey := Option.none
      bestValue := Option.none
      bestWithAllW := -1
      bestWithAllKey := Option.none
      bestWithAllValue := Option.none }

/-- Back-reconstruction (lines 564–582): walk the parent pointers, emitting
`variants[variantIndex]` when non-negative.  `fuel` bounds the number of loop
iterations; a JS run that terminates never revisits a `(w, key)` pair, so any
fuel larger than the total entry count reproduces it, while fuel exhaustion
models a non-terminating walk. -/
def backWalk (ctx : DPCtx) (dp : List Bucket) :
    Nat → Int → Option DPKey → Option (List Variant)
  | 0, curW, curKey => if curW > 0 ∧ curKey.isSome then Option.none else some []
  | fuel + 1, curW, curKey =>
    if curW > 0 then
      match curKey with
      | Option.none => some []
      | some k =>
        match alGet? (dp.getD curW.toNat []) k with
        | Option.none => some []
        | some node =>
          match backWalk ctx dp fuel node.prevW node.prevKey with
          | Option.none => Option.none
          | some tail =>
            if node.variantIndex ≥ 0 then
              match ctx.variants.get? node.variantIndex.toNat with
              | some v => some (v :: tail)
              | Option.none => Option.none
            else some tail
    else some []

/-- The tally of the reconstructed sequence, in first-seen order
(`finalCounts`, lines 694–698).  The source keys the `Map` by the string
`"${name}:lvl${level}"`; since the rendered level never contains a colon,
that string determines and is determined by the `(name, level)` pair, so the
tally is kept pair-keyed here and the lossy `split(":")` re-parse is applied
afterwards by `parseComboKey`. -/
def bumpCount (m : List ((String × ℚ) × Nat)) (k : String × ℚ) :
    List ((String × ℚ) × Nat) :=
  if (m.find? (fun e => e.1 = k)).isSome then
    m.map (fun e => if e.1 = k then (e.1, e.2 + 1) else e)
  else m ++ [(k, 1)]

def countsOf (seq : List Variant) : List ((String × ℚ) × Nat) :=
  seq.foldl (fun m v => bumpCount m (v.name, v.level)) []

/-- Single-character split, as JS `String.prototype.split(sep)` for the
one-character separators the source uses (`":"` and `","`). -/
def splitOnChar (sep : Char) : List Char → List (List Char)
  | [] => [[]]
  | c :: cs =>
    match splitOnChar sep cs with
    | [] => [[c]]
    | h :: t => if c = sep then [] :: h :: t else (c :: h) :: t

/-- JS `str.replace("lvl", "")`: remove the first occurrence of `"lvl"`,
scanning left to right. -/
def stripFirstLvl : List Char → List Char
  | [] => []
  | c :: cs =>
    if c = 'l' then
      match cs with
      | 'v' :: 'l' :: rest => rest
      | _ => c :: stripFirstLvl cs
    else c :: stripFirstLvl cs

def jsWhitespace (c : Char) : Bool :=
  c = ' ' || c = '\t' || c = '\n' || c = '\r' || c = '\x0b' || c = '\x0c'

def digitsToNum (l : List Char) : ℚ :=
  l.foldl (fun a c => a * 10 + ((c.toNat - '0'.toNat : Nat) : ℚ)) 0

def digitsToNat (l : List Char) : Nat :=
  l.foldl (fun a c => a * 10 + (c.toNat - '0'.toNat)) 0

def allDigits (l : List Char) : Bool := l.all Char.isDigit

def hexVal (c : Char) : Nat :=
  if c.isDigit then c.toNat - '0'.toNat
  else if 'a' ≤ c ∧ c ≤ 'f' then c.toNat - 'a'.toNat + 10
  else c.toNat - 'A'.toNat + 10

def isHexDigit (c : Char) : Bool :=
  c.isDigit || ('a' ≤ c && c ≤ 'f') || ('A' ≤ c && c ≤ 'F')

def radixToNum (radix : Nat) (l : List Char) : ℚ :=
  ((l.foldl (fun a c => a * radix + hexVal c) 0 : Nat) : ℚ)

def pow10 (n : Nat) : ℚ := (10 : ℚ) ^ n

def applyExp (q : ℚ) (e : Int) : ℚ :=
  if 0 ≤ e then q * pow10 e.toNat else q / pow10 (-e).toNat

/-- Exponent part after `e`/`E`: an optional sign followed by at least one
digit and nothing else. -/
def parseExpPart : List Char → Option Int
  | '+' :: r =>
    if r ≠ [] ∧ allDigits r then some (Int.ofNat (digitsToNat r)) else Option.none
  | '-' :: r =>
    if r ≠ [] ∧ allDigits r then some (-Int.ofNat (digitsToNat r)) else Option.none
  | r =>
    if r ≠ [] ∧ allDigits r then some (Int.ofNat (digitsToNat r)) else Option.none

/-- A JS decimal numeric literal `digits[.digits][eE[±]digits]` (at least one
mantissa digit, the dot optional on either side), as its exact rational
value; anything else is `none`. -/
def parseDecimal (l : List Char) : Option ℚ :=
  let ip := l.takeWhile Char.isDigit
  let r1 := l.dropWhile Char.isDigit
  match r1 with
  | [] => if ip = [] then Option.none else some (digitsToNum ip)
  | '.' :: r2 =>
    let fp := r2.takeWhile Char.isDigit
    let r3 := r2.dropWhile Char.isDigit
    if ip = [] ∧ fp = [] then Option.none
    else
      let mant := digitsToNum ip + digitsToNum fp / pow10 fp.length
      match r3 with
      | [] => some mant
      | e :: r4 =>
        if e = 'e' ∨ e = 'E' then (parseExpPart r4).map (applyExp mant)
        else Option.none
  | e :: r2 =>
    if (e = 'e' ∨ e = 'E') ∧ ip ≠ [] then
      (parseExpPart r2).map (applyExp (digitsToNum ip))
    else Option.none

/-- JS `Number(str)`: whitespace-trimmed; empty → `0`; decimal, hex, octal
and binary literals (sign only on decimals), exact over ℚ like every other
number in this development.  `none` stands for a value that `===`-equals no
finite variant level (`NaN`, and the `Infinity` spellings). -/
def jsNumber (s : String) : Option ℚ :=
  let t := ((s.data.dropWhile jsWhitespace).reverse.dropWhile jsWhitespace).reverse
  match t with
  | [] => some 0
  | '0' :: x :: rest =>
    if x = 'x' ∨ x = 'X' then
      if rest ≠ [] ∧ rest.all isHexDigit then some (radixToNum 16 rest)
      else Option.none
    else if x = 'o' ∨ x = 'O' then
      if rest ≠ [] ∧ rest.all (fun c => '0' ≤ c ∧ c ≤ '7') then
        some (radixToNum 8 rest)
      else Option.none
    else if x = 'b' ∨ x = 'B' then
      if rest ≠ [] ∧ rest.all (fun c => c = '0' ∨ c = '1') then
        some (radixToNum 2 rest)
      else Option.none
    else parseDecimal t
  | '+' :: rest => parseDecimal rest
  | '-' :: rest => (parseDecimal rest).map (fun q => -q)
  | _ => parseDecimal t

/-- The lossy combination-key round trip (lines 696 and 700–701): the tally
key is the string `"${name}:lvl${level}"`; the rebuild destructures
`key.split(":")` into its first two chunks and computes
`Number(chunk1.replace("lvl", ""))`.  A finite JS number never renders with
a colon, so the chunk list is `name.split(":")` with `"lvl" ++ render level`
appended: for a colon-free name the round trip is the identity (the rendered
level string re-parses to the same number), while a name containing a colon
has both the name and the level re-read from fragments of the name itself. -/
def parseComboKey (name : String) (level : ℚ) : String × Option ℚ :=
  match splitOnChar ':' name.data with
  | [] => (name, some level)
  | [_] => (name, some level)
  | c0 :: c1 :: _ => (⟨c0⟩, jsNumber ⟨stripFirstLvl c1⟩)

structure ComboItem where
  name : String
  level : ℚ
  count : Nat
  size : ℚ
  incomePerBuilding : ℚ
  capacity : ℚ
  storageCapacity : StorageVal
  workerType : WorkerType
  type : String
  totalIncome : ℚ
  totalSize : ℚ
  deriving DecidableEq, Repr

/-- One entry of `combinationFinal` (lines 699–716): re-parses the tally key
with `parseComboKey` and looks the variant up by the parsed name and level
(`variants.find(...)!`); a failed lookup — an unmatched parsed pair, or a
`NaN` level, which `===`-equals nothing — dereferences `undefined` and is a
JS `TypeError`, modelled as `none`. -/
def mkComboItem (variants : List Variant) (e : (String × ℚ) × Nat) :
    Option ComboItem :=
  match parseComboKey e.1.1 e.1.2 with
  | (_, Option.none) => Option.none
  | (pn, some lv) =>
    match variants.find? (fun x => x.name = pn ∧ x.level = lv) with
    | some variant =>
      some
        { name := pn
          level := lv
          count := e.2
          size := variant.size
          incomePerBuilding := variant.income
          capacity := variant.capacity
          storageCapacity := variant.storageCapacity
          workerType := variant.workerType
          type := variant.type
          totalIncome := variant.income * (e.2 : ℚ)
          totalSize := variant.size * (e.2 : ℚ) }
    | Option.none => Option.none

def combinationOf (variants : List Variant) (seq : List Variant) :
    Option (List ComboItem) :=
  (countsOf seq).mapM (mkComboItem variants)

/-- Total order on strings used to canonicalize a resident's preference set
(the source sorts the business names and joins them into a pool key; any
fixed total order yields the same pool identities). -/
def charListLt : List Char → List Char → Bool
  | [], [] => false
  | [], _ :: _ => true
  | _ :: _, [] => false
  | a :: as, b :: bs =>
    if a.toNat < b.toNat then true
    else if b.toNat < a.toNat then false
    else charListLt as bs

def strLt (a b : String) : Bool := charListLt a.data b.data

/-- The resident-pool key (line 633): the preference names sorted and joined
with `","`, or the literal string `"*"` when there are no preferences.  JS
`Array.prototype.sort` compares UTF-16 code units; `strLt` compares code
points, which agrees on all basic-plane names. -/
def poolKey (v : Variant) : String :=
  match v.prefers with
  | some ps =>
    if ps.length > 0 then String.intercalate "," (sSort strLt ps) else "*"
  | Option.none => "*"

/-- Line 651: `prefKey === "*" || prefKey.split(",").includes(v.name)` — the
key string is re-split on `","`, so a preference name containing a comma can
never match, and a preference list rendering to `"*"` collides with the
sentinel pool. -/
def canWork (k : String) (name : String) : Bool :=
  k = "*" || ((splitOnChar ',' k.data).map (fun l => (⟨l⟩ : String))).contains name

/-- Pass 2 inner loop (lines 648–660): draw workers from the pools in
insertion order, skipping empty or incompatible pools, breaking once
`allocated ≥ cap`.  Returns the updated pools and the allocation. -/
def allocFromPools (vname : String) (cap : ℚ) :
    List (String × ℚ) → ℚ → List (String × ℚ) × ℚ
  | [], alloc => ([], alloc)
  | (k, available) :: rest, alloc =>
    if available ≤ 0 then
      let r := allocFromPools vname cap rest alloc
      ((k, available) :: r.1, r.2)
    else if !canWork k vname then
      let r := allocFromPools vname cap rest alloc
      ((k, available) :: r.1, r.2)
    else
      let needed := cap - alloc
      let toAllocate := min available needed
      let alloc' := alloc + toAllocate
      if alloc' ≥ cap then ((k, available - toAllocate) :: rest, alloc')
      else
        let r := allocFromPools vname cap rest alloc'
        ((k, available - toAllocate) :: r.1, r.2)

structure SimMetrics where
  totalIncome : Int
  businessIncome : ℚ
  scaledHouseIncome : ℚ
  neutralIncome : ℚ
  totalStorage : ℚ
  totalHouseCapacity : ℚ
  totalAllocatedEmployees : ℚ
  businessCapacityByName : List (String × ℚ)
  businessAllocatedByName : List (String × ℚ)
  houseCapacityByName : List (String × ℚ)
  deriving DecidableEq, Repr

/-- `simulateSequence` (lines 614–688). -/
def simulateSequence (seq : List Variant) : SimMetrics :=
  let pass1 := seq.foldl
    (fun (acc : List (String × ℚ) × ℚ × ℚ × ℚ ×
          List (String × ℚ) × List (String × ℚ)) v =>
      let (pools, thc, hbi, neutral, houseCapByName, busCapByName) := acc
      match v.workerType with
      | .residents =>
        let capacity := v.capacity
        (alAdd pools (poolKey v) capacity, thc + capacity, hbi + v.income, neutral,
         alAdd houseCapByName v.name capacity, busCapByName)
      | .employees =>
        (pools, thc, hbi, neutral, houseCapByName, alAdd busCapByName v.name v.capacity)
      | .none =>
        (pools, thc, hbi, neutral + v.income, houseCapByName, busCapByName))
    ([], 0, 0, 0, [], [])
  let pools0 := pass1.1
  let totalHouseCapacity := pass1.2.1
  let houseBaseIncome := pass1.2.2.1
  let neutralIncome := pass1.2.2.2.1
  let houseCapacityByName := pass1.2.2.2.2.1
  let businessCapacityByName := pass1.2.2.2.2.2
  let pass2 := seq.foldl
    (fun (acc : List (String × ℚ) × List (String × ℚ) × ℚ × ℚ) v =>
      match v.workerType with
      | .employees =>
        let (pools, busAlloc, businessIncome, totalAllocated) := acc
        let cap := v.capacity
        let res := allocFromPools v.name cap pools 0
        let allocated := res.2
        let efficiency := if cap > 0 then allocated / cap else 1
        let count := (seq.filter (fun x => x.name = v.name ∧
          x.workerType = WorkerType.employees)).length
        let duplicatePenalty : ℚ := if count > 2 then (1/10) * ((count : ℚ) - 2) else 0
        let penaltyMultiplier := max 0 (1 - duplicatePenalty)
        (res.1, alAdd busAlloc v.name allocated,
         businessIncome + v.income * efficiency * penaltyMultiplier,
         totalAllocated + allocated)
      | _ => acc)
    (pools0, [], 0, 0)
  let businessIncome := pass2.2.2.1
  let totalAllocatedEmployees := pass2.2.2.2
  let businessAllocatedByName := pass2.2.1
  let houseEfficiency :=
    if totalHouseCapacity > 0 then totalAllocatedEmployees / totalHouseCapacity else 1
  let scaledHouseIncome := houseBaseIncome * houseEfficiency
  { totalIncome := jsRound (businessIncome + scaledHouseIncome + neutralIncome),
    businessIncome := businessIncome, scaledHouseIncome := scaledHouseIncome,
    neutralIncome := neutralIncome, totalStorage := 0,
    totalHouseCapacity := totalHouseCapacity,
    totalAllocatedEmployees := totalAllocatedEmployees,
    businessCapacityByName := businessCapacityByName,
    businessAllocatedByName := businessAllocatedByName,
    houseCapacityByName := houseCapacityByName }

inductive EffLabel where
  | percent (n : Int)
  | na
  deriving DecidableEq, Repr

/-- `averageEfficiencyByType` (lines 720–741). -/
def averageEfficiency (finalSeq : List Variant) (metrics : SimMetrics)
    (combinationFinal : List ComboItem) : List (String × EffLabel) :=
  let d1 := metrics.businessCapacityByName.foldl (fun d e =>
    let name := e.1
    let cap := e.2
    let allocated := alGetQ metrics.businessAllocatedByName name
    let count := (finalSeq.filter (fun x => x.name = name ∧
      x.workerType = WorkerType.employees)).length
    let duplicatePenalty : ℚ := if count > 2 then (1/10) * ((count : ℚ) - 2) else 0
    let baseEff := if cap > 0 then allocated / cap else 1
    let eff := max 0 (baseEff - duplicatePenalty)
    alSet d name (EffLabel.percent (jsRound (eff * 100)))) []
  let d2 := metrics.houseCapacityByName.foldl (fun d e =>
    let eff := if metrics.totalHouseCapacity > 0 then
      metrics.totalAllocatedEmployees / metrics.totalHouseCapacity else 1
    alSet d e.1 (EffLabel.percent (jsRound (eff * 100)))) d1
  combinationFinal.foldl (fun d item =>
    if (alGet? d item.name).isSome then d
    else if item.storageCapacity.isObj && item.workerType = WorkerType.none then
      alSet d item.name EffLabel.na
    else alSet d item.name (EffLabel.percent 100)) d2

structure BlockResult where
  combination : List ComboItem
  totalIncome : Int
  averageEfficiencyByType : List (String × EffLabel)
  totalSize : ℚ
  totalStorage : ℚ
  deriving DecidableEq, Repr

inductive OptOutcome (α : Type) where
  | ok (r : α)
  | noSolution
  | crash
  deriving DecidableEq, Repr

/-- Fuel for the back-walk: strictly more than the total number of stored
states, i.e. more steps than any terminating JS walk can take. -/
def walkFuel (ctx : DPCtx) (dp : List Bucket) : Nat :=
  ((List.range (ctx.capacity + 1)).map (fun w => (dp.getD w []).length)).sum + 2

/-- `optimizeBlockIncomeFromDefinitions` (lines 206–748).  `crash` models a
thrown `TypeError`, `noSolution` the `return null` path. -/
def optimizeBlockIncomeFromDefinitions (defs : BuildingDefinitions)
    (sizeLimit : ℚ) (opts : OptimizeOpts) : OptOutcome BlockResult :=
  let ctx := mkCtx defs sizeLimit opts
  match runDP ctx with
  | Option.none => .crash
  | some dp =>
    let best := selectBest ctx dp
    if ctx.requiredMask ≠ 0 ∧ best.bestWithAllKey.isNone then .noSolution
    else
      let bestW : Int :=
        if ctx.requiredMask ≠ 0 then best.bestWithAllW else (best.bestW : Int)
      let bestKey := if ctx.requiredMask ≠ 0 then best.bestWithAllKey else best.bestKey
      match backWalk ctx dp (walkFuel ctx dp) bestW bestKey with
      | Option.none => .crash
      | some chosen =>
        let finalSeq := chosen.reverse
        match combinationOf ctx.variants finalSeq with
        | Option.none => .crash
        | some combinationFinal =>
          let finalMetrics := simulateSequence finalSeq
          .ok { combination := combinationFinal,
                totalIncome := finalMetrics.totalIncome,
                averageEfficiencyByType :=
                  averageEfficiency finalSeq finalMetrics combinationFinal,
                totalSize := (combinationFinal.map (·.totalSize)).sum,
                totalStorage := finalMetrics.totalStorage }

/-! ## Multi-block driver `optimizeMultipleBlocks` (lines 761–1015) -/

def res4Add (a b : Res4) : Res4 :=
  ⟨a.money + b.money, a.wood + b.wood, a.cement + b.cement, a.steel + b.steel⟩

/-- Storage contribution of a combination: for items with object-shaped
storage, `(sc.axis || 0) * item.count` summed per axis (lines 777–786 /
962–972). -/
def storageContribution (combination : List ComboItem) : Res4 :=
  combination.foldl (fun acc item =>
    match item.storageCapacity with
    | .obj sc =>
      ⟨acc.money + orZero sc.money * (item.count : ℚ),
       acc.wood + orZero sc.wood * (item.count : ℚ),
       acc.cement + orZero sc.cement * (item.count : ℚ),
       acc.steel + orZero sc.steel * (item.count : ℚ)⟩
    | .num _ => acc) ⟨0, 0, 0, 0⟩

/-- The per-block catalog copy with every misc `mandatory` flag cleared
(lines 886–897 and 903–918 perform the same stripping on a
`JSON.parse(JSON.stringify(defs))` copy). -/
def stripMiscMandatory (defs : BuildingDefinitions) : BuildingDefinitions :=
  ⟨defs.buildingTypes.map (fun tg =>
    if tg.1 = "misc" then
      (tg.1, tg.2.map (fun bd =>
        (bd.1,
          { bd.2 with
            mandatory := false
            upgrades := bd.2.upgrades.map (fun ups =>
              ups.map (fun up => { up with mandatory := false })) })))
    else tg)⟩

/-- The reservation set (lines 826–851): for each misc building whose base or
any upgrade is mandatory, the highest-level mandatory variant. -/
def reservationOf (defs : BuildingDefinitions) : List Variant :=
  match alGet? defs.buildingTypes "misc" with
  | Option.none => []
  | some grp =>
    grp.foldl (fun acc bd =>
      let building := bd.2
      let isMandatory := building.mandatory ||
        ((building.upgrades.getD []).any (·.mandatory))
      if isMandatory then
        let buildingVariants := (buildVariantsFromDefinitions defs).filter
          (fun v => v.name = bd.1 && v.mandatory)
        match buildingVariants with
        | [] => acc
        | h :: t =>
          acc ++ [t.foldl (fun best curr => if curr.level > best.level then curr else best) h]
      else acc) []

/-- A reserved mandatory misc variant injected into the last block's
combination (lines 932–944). -/
def injectItem (variant : Variant) : ComboItem :=
  { name := variant.name
    level := variant.level
    count := 1
    size := variant.size
    incomePerBuilding := variant.income
    capacity := variant.capacity
    storageCapacity := variant.storageCapacity
    workerType := variant.workerType
    type := variant.type
    totalIncome := variant.income
    totalSize := variant.size }

structure BlockEntry where
  blockNumber : Nat
  combination : List ComboItem
  totalIncome : ℚ
  averageEfficiencyByType : List (String × EffLabel)
  totalSize : ℚ
  blockStorage : Res4
  deriving DecidableEq, Repr

structure MultiResult where
  blocks : List BlockEntry
  aggregateTotalIncome : ℚ
  aggregateTotalStorage : Res4
  baseStorage : Res4
  deriving DecidableEq, Repr

inductive DriverOutcome where
  | ok (r : MultiResult)
  | noSolution
  | invalidArgument
  | crash
  deriving DecidableEq, Repr

/-- The per-block loop of `optimizeMultipleBlocks` for `N ≥ 2`
(lines 864–999), recursing on the number of remaining blocks. -/
def driverLoop (defs : BuildingDefinitions) (numBlocks : Nat) (sizeLimit : ℚ)
    (opts : OptimizeOpts) (mandatoryMiscBuildings : List Variant)
    (reservedSize reservedIncome : ℚ) :
    Nat → Res4 → List BlockEntry → ℚ → DriverOutcome
  | 0, aggStorage, acc, aggIncome =>
    .ok { blocks := acc
          aggregateTotalIncome := aggIncome
          aggregateTotalStorage := res4Add DEFAULT_BASE_RESOURCES aggStorage
          baseStorage := DEFAULT_BASE_RESOURCES }
  | r + 1, aggStorage, acc, aggIncome =>
    let blockNum := numBlocks - r
    let cumulativeStorage := res4Add DEFAULT_BASE_RESOURCES aggStorage
    let isLastBlock := r = 0
    let effectiveSizeLimit := if isLastBlock then sizeLimit - reservedSize else sizeLimit
    match optimizeBlockIncomeFromDefinitions (stripMiscMandatory defs)
        effectiveSizeLimit { opts with startingResources := some cumulativeStorage } with
    | .crash => .crash
    | .noSolution => .noSolution
    | .ok blockResult =>
      let injected := isLastBlock ∧ mandatoryMiscBuildings ≠ []
      let combination :=
        if injected then blockResult.combination ++ mandatoryMiscBuildings.map injectItem
        else blockResult.combination
      let totalIncome : ℚ :=
        if injected then (blockResult.totalIncome : ℚ) + reservedIncome
        else (blockResult.totalIncome : ℚ)
      let totalSize : ℚ :=
        if injected then blockResult.totalSize + reservedSize else blockResult.totalSize
      let avgEff :=
        if injected then
          mandatoryMiscBuildings.foldl (fun d variant =>
            if (alGet? d variant.name).isSome then d
            else if variant.workerType = WorkerType.none then alSet d variant.name EffLabel.na
            else alSet d variant.name (EffLabel.percent 100))
            blockResult.averageEfficiencyByType
        else blockResult.averageEfficiencyByType
      let contribution := storageContribution combination
      let entry : BlockEntry :=
        { blockNumber := blockNum
          combination := combination
          totalIncome := totalIncome
          averageEfficiencyByType := avgEff
          totalSize := totalSize
          blockStorage := contribution }
      driverLoop defs numBlocks sizeLimit opts mandatoryMiscBuildings reservedSize
        reservedIncome r (res4Add aggStorage contribution) (acc ++ [entry])
        (aggIncome + totalIncome)

/-- `optimizeMultipleBlocks` (lines 761–1015).  `invalidArgument` models the
thrown `Error` for `numBlocks < 1`. -/
def optimizeMultipleBlocks (defs : BuildingDefinitions) (numBlocks : Nat)
    (sizeLimit : ℚ) (opts : OptimizeOpts) : DriverOutcome :=
  if numBlocks < 1 then .invalidArgument
  else if numBlocks = 1 then
    match optimizeBlockIncomeFromDefinitions defs sizeLimit opts with
    | .crash => .crash
    | .noSolution => .noSolution
    | .ok result =>
      let contribution := storageContribution result.combination
      .ok { blocks := [{ blockNumber := 1
                         combination := result.combination
                         totalIncome := (result.totalIncome : ℚ)
                         averageEfficiencyByType := result.averageEfficiencyByType
                         totalSize := result.totalSize
                         blockStorage := contribution }]
            aggregateTotalIncome := (result.totalIncome : ℚ)
            aggregateTotalStorage := res4Add DEFAULT_BASE_RESOURCES contribution
            baseStorage := DEFAULT_BASE_RESOURCES }
  else
    let mandatoryMiscBuildings := reservationOf defs
    let reservedSize := (mandatoryMiscBuildings.map (·.size)).sum
    let reservedIncome := (mandatoryMiscBuildings.map (·.income)).sum
    driverLoop defs numBlocks sizeLimit opts mandatoryMiscBuildings reservedSize
      reservedIncome numBlocks ⟨0, 0, 0, 0⟩ [] 0

/-! ## Helpers for stating claim theorems -/

def OptOutcome.isOk : OptOutcome α → Bool
  | .ok _ => true
  | _ => false

def DriverOutcome.blocksOf : DriverOutcome → Option (List BlockEntry)
  | .ok r => some r.blocks
  | _ => Option.none

/-- Sum of `size * count` over a combination (the quantity bounded by the
size-budget law). -/
def comboSizeSum (c : List ComboItem) : ℚ :=
  (c.map (fun i => i.size * (i.count : ℚ))).sum

def OptOutcome.comboSizeSum? : OptOutcome BlockResult → Option ℚ
  | .ok r => some (comboSizeSum r.combination)
  | _ => Option.none

/-- The staffing prefeasibility condition exactly as the specification words
it: "Reject if H / B' < 0.9, OR if preferenceCapacity[v.name] <
businessCapacity[v.name] + v.capacity", for non-mandatory employee variants
(no positivity guard on B').  Stated for comparison with the source's
`staffingRejects`. -/
def specStaffingRejects (businessNames : List String)
    (businessCapacityArr preferenceCapacityArr : List ℚ)
    (totalHouseCapacity : ℚ) (v : Variant) : Bool :=
  if v.workerType = WorkerType.employees && !v.mandatory then
    let newBusinessCapacity := businessCapacityArr.foldl (· + ·) 0 + v.capacity
    let availableForThisBiz :=
      match bizIndex businessNames v.name with
      | some j => preferenceCapacityArr.getD j 0
      | none => 0
    let currentlyUsedForThisBiz :=
      match bizIndex businessNames v.name with
      | some j => businessCapacityArr.getD j 0
      | none => 0
    decide (totalHouseCapacity / newBusinessCapacity < 9/10 ∨
      availableForThisBiz < currentlyUsedForThisBiz + v.capacity)
  else false

/-! ## Concrete inputs used by counterexamples and witnesses -/

/-- Catalog with a single mandatory misc building of size 1 and no cost. -/
def oneMandatoryMiscCat : BuildingDefinitions :=
  ⟨[("misc", [("M1", { mandatory := true, size := some 1 })])]⟩

/-- Catalog with a building of negative income. -/
def negIncomeCat : BuildingDefinitions :=
  ⟨[("shop", [("Bad", { baseIncome := some (-5), size := some 2 })])]⟩

/-- Catalog with a mandatory misc building that also earns income. -/
def richMiscCat : BuildingDefinitions :=
  ⟨[("misc", [("M1", { mandatory := true, baseIncome := some 100, size := some 1 })])]⟩

/-- Catalog with the same building name `Foo` under two types with different
sizes. -/
def collidingNamesCat : BuildingDefinitions :=
  ⟨[("typeA", [("Foo", { baseIncome := some 1, size := some 3 })]),
    ("typeB", [("Foo", { baseIncome := some 100, size := some 1 })])]⟩

/-- Catalog with a mandatory misc building of size 5 (larger than the block). -/
def bigMiscCat : BuildingDefinitions :=
  ⟨[("misc", [("M1", { mandatory := true, size := some 5 })])]⟩

/-- Catalog with unique, but colon-carrying, building names: the tally key of
`typeX:a:lvl2` at level 1 is `"a:lvl2:lvl1"`, which re-parses to name `"a"`
at level `2` — building `typeY:a`'s level-2 variant of size 3. -/
def colonNamesCat : BuildingDefinitions :=
  ⟨[("typeX", [("a:lvl2", { baseIncome := some 100, size := some 1 })]),
    ("typeY", [("a", { size := some 3, upgrades := some [{ level := 2 }] })])]⟩

def overrideUp2 : BuildingUpgrade := { level := 2, income := some 100 }

def incrementalUp3 : BuildingUpgrade := { level := 3, additionalIncome := some 5 }

/-- Catalog whose level-2 upgrade declares an absolute income and whose
level-3 upgrade only an incremental one. -/
def overrideThenAddCat : BuildingDefinitions :=
  ⟨[("shop", [("S", { baseIncome := some 10, upgrades := some [overrideUp2, incrementalUp3] })])]⟩

/-- Catalog with a building of negative size. -/
def negSizeCat : BuildingDefinitions :=
  ⟨[("x", [("Neg", { size := some (-1) })])]⟩

/-- A non-mandatory employee variant of negative capacity (as produced by a
definition with `employees: -5`). -/
def negBizVariant : Variant :=
  { type := "biz", name := "Biz", level := 1, size := 1, income := 10, capacity := -5,
    storageCapacity := .num 0, mandatory := false, costs := {},
    workerType := WorkerType.employees, prefers := Option.none }

/-! ## C1 -/

/-- C1: the claim states that the final selection restricts to states whose
mask equals `requiredMask` and that `null` is returned exactly when no
terminal state carries the full mask.  On the catalog with one mandatory
misc building of size 1 and `sizeLimit = 1`, the DP produces a terminal
state whose mask equals the required mask (and whose money component is
non-negative), yet the optimizer returns `NoSolution`: the selection loop
reads `parts[2]` of the packed key — the wood component — where the mask is
`parts[5]`, contradicting the comments above it and `pruneMapToBeam`, which
reads index 5. -/
theorem C1_selection_reads_wood_not_mask :
    (mkCtx oneMandatoryMiscCat 1 {}).requiredMask = 1 ∧
    (runDP (mkCtx oneMandatoryMiscCat 1 {})).map
      (fun dp => (dp.getD 1 []).any
        (fun e => e.1.mask = (mkCtx oneMandatoryMiscCat 1 {}).requiredMask ∧
                  0 ≤ e.1.money)) = some true ∧
    optimizeBlockIncomeFromDefinitions oneMandatoryMiscCat 1 {} = .noSolution := by
  refine ⟨by with_unfolding_all decide, by with_unfolding_all decide, ?_⟩
  with_unfolding_all decide

/-! ## C2 -/

/-- C2 counterexample: a catalog containing a definition with negative income
is not rejected — `buildVariantsFromDefinitions` expands it verbatim and the
optimizer completes normally with an ordinary result, so no `InvalidCatalog`
error is raised before (or after) DP work. -/
theorem C2_counterexample_no_invalid_catalog :
    (buildVariantsFromDefinitions negIncomeCat).map (fun v => (v.name, v.income, v.size)) =
      [("Bad", -5, 2)] ∧
    (optimizeBlockIncomeFromDefinitions negIncomeCat 1 {}).isOk = true := by
  constructor
  · with_unfolding_all decide
  · with_unfolding_all decide

/-- C2 amended: the code performs no catalog validation at all.  Every
definition — negative sizes and incomes included — is expanded verbatim into
its level-1 variant (income `baseIncome || 0`, size `size || 1`), and for
every catalog and size limit the DP root bucket is populated before the loop
runs; no `InvalidCatalog` error exists in the code. -/
theorem C2_amended_no_validation :
    (∀ t n d, ((expandBuilding t n d).head?).map (fun v => (v.income, v.size)) =
      some (orZero d.baseIncome, sizeOrOne d.size)) ∧
    (∀ defs sizeLimit opts,
      (dpInit (mkCtx defs sizeLimit opts)).getD 0 [] =
        [(initKey (mkCtx defs sizeLimit opts), initNode (mkCtx defs sizeLimit opts))]) := by
  constructor
  · intro t n d
    simp [expandBuilding]
  · intro defs sizeLimit opts
    simp [dpInit]

/-! ## C5 -/

/-- C5 counterexample: at a live state with one business of accumulated
capacity `-5` (from a definition with `employees: -5`), house capacity 4 and
preference capacity 4, offering the same negative-capacity variant again
gives `B' = -10 ≤ 0`, so the source's guard `newBusinessCapacity > 0` skips
the filter and the transition is accepted — while the claim's condition
`H / B' < 0.9` holds (`4 / -10 < 0.9`), i.e. the claim says it must be
rejected.  The claimed equivalence is therefore false. -/
theorem C5_counterexample_nonpositive_capacity :
    staffingRejects ["Biz"] [-5] [4] 4 negBizVariant = false ∧
    specStaffingRejects ["Biz"] [-5] [4] 4 negBizVariant = true := by
  constructor
  · with_unfolding_all decide
  · with_unfolding_all decide

/-- C5 amended: the transition is rejected by the staffing filter iff the
variant is a non-mandatory employee variant AND the new total business
capacity `B' = Σ businessCapacity + v.capacity` is positive AND
(`H / B' < 0.9` or `preferenceCapacity[v.name] <
businessCapacity[v.name] + v.capacity`); when `B' ≤ 0` the transition is not
filtered; mandatory employee variants and other worker kinds bypass the
filter. -/
theorem C5_amended_staffing_filter (businessNames : List String)
    (businessCapacityArr preferenceCapacityArr : List ℚ)
    (totalHouseCapacity : ℚ) (v : Variant) :
    staffingRejects businessNames businessCapacityArr preferenceCapacityArr
        totalHouseCapacity v = true ↔
      v.workerType = WorkerType.employees ∧ v.mandatory = false ∧
      0 < businessCapacityArr.foldl (· + ·) 0 + v.capacity ∧
      (totalHouseCapacity / (businessCapacityArr.foldl (· + ·) 0 + v.capacity) < 9/10 ∨
        (match bizIndex businessNames v.name with
          | some j => preferenceCapacityArr.getD j 0
          | none => 0) <
          (match bizIndex businessNames v.name with
            | some j => businessCapacityArr.getD j 0
            | none => 0) + v.capacity) := by
  by_cases hw : v.workerType = WorkerType.employees
  · by_cases hm : v.mandatory
    · simp [staffingRejects, hw, hm]
    · simp only [staffingRejects, hw, hm]
      simp [decide_eq_true_eq, not_le, hw, hm]
  · simp [staffingRejects, hw]

/-! ## C6 -/

/-- C6 counterexample: with base income 10, an absolute income 100 at level 2
and `additionalIncome: 5` at level 3, the level-3 variant receives 105
(the override carries forward and the increment is added to it), while the
claim's "otherwise" formula `baseIncome + Σ additionalIncome over upgrades
with level ≤ 3` yields 15. -/
theorem C6_counterexample_override_carries_forward :
    ((buildVariantsFromDefinitions overrideThenAddCat).get? 2).map
      (fun v => (v.level, v.income)) = some (3, 105) ∧
    incrementalUp3.income = Option.none ∧
    orZero (overrideThenAddCat.buildingTypes.foldr (fun _ a => a) (some 10) : Option ℚ) +
      orZero incrementalUp3.additionalIncome = 15 ∧
    (105 : ℚ) ≠ 15 := by
  refine ⟨by with_unfolding_all decide, rfl, by with_unfolding_all decide,
    by with_unfolding_all decide⟩

/-- Income accumulator of the upgrade walk: absolute `income` resets the
accumulator, otherwise `additionalIncome` (default 0) is added. -/
def incomeFold (acc : ℚ) (l : List BuildingUpgrade) : ℚ :=
  l.foldl (fun s u =>
    match u.income with
    | some a => a
    | Option.none => s + orZero u.additionalIncome) acc

theorem expandUpgrades_income (t n : String) (d : BuildingDefinition)
    (baseSize : ℚ) (bs : StorageVal) (bp : Option (List String)) (bc : ResourceCost) :
    ∀ (ups : List BuildingUpgrade) (acc cw : ℚ) (j : Nat), j < ups.length →
      ((expandUpgrades t n d baseSize bs bp bc ups acc cw).get? j).map (·.income) =
        some (incomeFold acc (ups.take (j + 1)))
  | [], _, _, j, h => absurd h (by simp)
  | up :: rest, acc, cw, 0, _ => by
    cases hinc : up.income <;>
      simp [expandUpgrades, incomeFold, hinc]
  | up :: rest, acc, cw, j + 1, h => by
    have ih := expandUpgrades_income t n d baseSize bs bp bc rest
      (match up.income with
        | some a => a
        | Option.none => acc + orZero up.additionalIncome)
      (match up.peopleCapacity with
        | some p => p
        | Option.none => match up.employees with | some e => e | Option.none => cw)
      j (by simpa using Nat.lt_of_succ_lt_succ h)
    cases hinc : up.income <;>
      simpa [expandUpgrades, incomeFold, hinc] using ih

theorem incomeFold_all_none (l : List BuildingUpgrade)
    (h : ∀ u ∈ l, u.income = Option.none) (acc : ℚ) :
    incomeFold acc l = acc + (l.map (fun u => orZero u.additionalIncome)).sum := by
  induction l generalizing acc with
  | nil => simp [incomeFold]
  | cons u rest ih =>
    have hu := h u (by simp)
    have hrest : ∀ u' ∈ rest, u'.income = Option.none := fun u' hm => h u' (by simp [hm])
    have hstep : incomeFold acc (u :: rest) =
        incomeFold (acc + orZero u.additionalIncome) rest := by
      simp [incomeFold, hu]
    rw [hstep, ih hrest]
    simp [add_assoc]

theorem incomeFold_last_absolute (l : List BuildingUpgrade) (u : BuildingUpgrade)
    (a : ℚ) (h : u.income = some a) (acc : ℚ) :
    incomeFold acc (l ++ [u]) = a := by
  simp [incomeFold, List.foldl_append, h]

/-- C6 amended: for the variant emitted for the `j`-th upgrade (in ascending
level order), the income equals `upgrade.income` when that upgrade declares
an absolute income; otherwise it equals the accumulated income, which equals
`baseIncome + Σ additionalIncome` over the upgrades up to position `j` only
when no earlier upgrade declared an absolute income (an earlier absolute
override replaces the base in that sum). -/
theorem C6_amended_income_accumulation (t n : String) (d : BuildingDefinition)
    (j : Nat) (u : BuildingUpgrade)
    (hj : (sSort (fun a b => a.level < b.level) (d.upgrades.getD [])).get? j = some u) :
    (∀ a, u.income = some a →
      ((expandBuilding t n d).get? (j + 1)).map (·.income) = some a) ∧
    ((∀ u' ∈ (sSort (fun a b => a.level < b.level) (d.upgrades.getD [])).take (j + 1),
        u'.income = Option.none) →
      ((expandBuilding t n d).get? (j + 1)).map (·.income) =
        some (orZero d.baseIncome +
          (((sSort (fun a b => a.level < b.level) (d.upgrades.getD [])).take (j + 1)).map
            (fun u' => orZero u'.additionalIncome)).sum)) := by
  set sorted := sSort (fun a b => a.level < b.level) (d.upgrades.getD []) with hs
  have hjlen : j < sorted.length := by
    by_contra hc
    rw [List.get?_eq_none.mpr (Nat.le_of_not_lt hc)] at hj
    exact Option.noConfusion hj
  have hbase : ((expandBuilding t n d).get? (j + 1)).map (·.income) =
      some (incomeFold (orZero d.baseIncome) (sorted.take (j + 1))) := by
    have := expandUpgrades_income t n d (sizeOrOne d.size)
      (d.storageCapacity.getD (d.capacity.getD (.num 0))) d.prefers
      (d.baseCost.getD {}) sorted (orZero d.baseIncome)
      (d.employees.getD (d.peopleCapacity.getD 0)) j hjlen
    simpa [expandBuilding, hs] using this
  constructor
  · intro a ha
    have htake : sorted.take (j + 1) = sorted.take j ++ [u] := by
      rw [List.take_succ]
      rw [show sorted[j]? = some u from by rw [← List.get?_eq_getElem?]; exact hj]
      simp
    rw [hbase, htake, incomeFold_last_absolute _ u a ha]
  · intro hnone
    rw [hbase, incomeFold_all_none _ hnone]

/-- Witness for `C6_amended_income_accumulation`: a single incremental
upgrade `{level 2, additionalIncome 5}` on base income 10 gives the level-2
variant income 15. -/
theorem C6_amended_income_accumulation_witness :
    ((expandBuilding "shop" "S"
      { baseIncome := some 10,
        upgrades := some [{ level := 2, additionalIncome := some 5 }] }).get? 1).map
      (·.income) = some (orZero (some (10 : ℚ)) +
        ((( sSort (fun a b => a.level < b.level)
            ((some [{ level := 2, additionalIncome := some 5 } ] :
              Option (List BuildingUpgrade)).getD [])).take 1).map
          (fun u' => orZero u'.additionalIncome)).sum) := by
  exact (C6_amended_income_accumulation "shop" "S"
    { baseIncome := some 10, upgrades := some [{ level := 2, additionalIncome := some 5 }] }
    0 { level := 2, additionalIncome := some 5 }
    (by with_unfolding_all decide)).2 (by with_unfolding_all decide)

/-! ## C3 counterexample -/

set_option maxRecDepth 20000 in
/-- C3 counterexample, three independent violations of "Σ size·count ≤ C":
(a) with the same building name under two types, the rebuilt combination
looks variants up by the re-parsed key; placing two copies of the size-1
`typeB:Foo` under `C = 2` yields a combination entry carrying the size of
`typeA:Foo` (3), so Σ size·count = 6 > 2;
(b) the key round trip `split(":")` is lossy: `colonNamesCat` has unique
building names, yet two copies of the size-1 `a:lvl2` under `C = 2` tally
under the key `"a:lvl2:lvl1"`, which re-parses to `("a", 2)` — building
`a`'s size-3 level-2 variant — so Σ size·count = 6 > 2 despite uniqueness;
(c) when the reserved mandatory misc size (5) exceeds the per-block limit
(`C = 3`), the last block of the multi-block driver solves with clamped
size limit 0 and then injects the reserved variant, so its Σ size·count
= 5 > 3. -/
theorem C3_counterexample_size_budget :
    (optimizeBlockIncomeFromDefinitions collidingNamesCat 2 {}).comboSizeSum? = some 6 ∧
    ¬((6 : ℚ) ≤ 2) ∧
    ((catalogNames colonNamesCat).Nodup ∧
      (optimizeBlockIncomeFromDefinitions colonNamesCat 2 {}).comboSizeSum? = some 6) ∧
    ((optimizeMultipleBlocks bigMiscCat 2 3 {}).blocksOf.map
      (fun bs => bs.map (fun b => comboSizeSum b.combination))) = some [0, 5] ∧
    ¬((5 : ℚ) ≤ 3) := by
  refine ⟨by with_unfolding_all decide, by with_unfolding_all decide,
    ⟨by with_unfolding_all decide, by with_unfolding_all decide⟩,
    by with_unfolding_all decide, by with_unfolding_all decide⟩

/-! ## C4 counterexample -/

set_option maxRecDepth 20000 in
/-- C4 counterexample: with a mandatory misc building that earns income 100,
the first (non-last) block of a 2-block run places `M1` voluntarily — the
driver only strips the `mandatory` flags for earlier blocks, it does not
remove the misc buildings from the catalog. -/
theorem C4_counterexample_misc_in_early_block :
    (mkCtx richMiscCat 1 {}).miscNames = ["M1"] ∧
    ((optimizeMultipleBlocks richMiscCat 2 1 {}).blocksOf.map
      (fun bs => bs.map (fun b => b.combination.map (·.name)))) =
      some [["M1"], ["M1"]] := by
  refine ⟨by with_unfolding_all decide, by with_unfolding_all decide⟩

/-! ## C8 counterexample -/

set_option maxRecDepth 20000 in
/-- C8 counterexample: a catalog containing a variant of negative size makes
the `C = 0` run throw (`dpMaps[nw]` with `nw = -1` is `undefined`), so no
empty-combination result is returned even though `requiredMask = 0`. -/
theorem C8_counterexample_negative_size_crash :
    (mkCtx negSizeCat 0 {}).requiredMask = 0 ∧
    optimizeBlockIncomeFromDefinitions negSizeCat 0 {} = .crash := by
  refine ⟨by with_unfolding_all decide, by with_unfolding_all decide⟩

/-! ## Generic helper lemmas -/

theorem foldlFixed {α β : Type _} (f : β → α → β) (l : List α) (b : β)
    (h : ∀ s x, x ∈ l → f s x = s) : l.foldl f b = b := by
  induction l generalizing b with
  | nil => rfl
  | cons x xs ih =>
    rw [List.foldl_cons, h b x (by simp)]
    exact ih b (fun s y hy => h s y (by simp [hy]))

theorem mem_of_mem_enumFrom {α : Type _} {l : List α} :
    ∀ {n : Nat} {p : Nat × α}, p ∈ l.enumFrom n → p.2 ∈ l := by
  induction l with
  | nil => intro n p h; simp [List.enumFrom] at h
  | cons x xs ih =>
    intro n p h
    rw [List.enumFrom] at h
    rcases List.mem_cons.mp h with h1 | h2
    · simp [h1]
    · exact List.mem_cons.mpr (Or.inr (ih h2))

theorem mem_of_mem_enum {α : Type _} {l : List α} {p : Nat × α}
    (h : p ∈ l.enum) : p.2 ∈ l := mem_of_mem_enumFrom h

theorem backWalk_zero (ctx : DPCtx) (dp : List Bucket) (fuel : Nat)
    (key : Option DPKey) : backWalk ctx dp fuel 0 key = some [] := by
  cases fuel <;> simp [backWalk]

theorem combinationOf_nil (variants : List Variant) :
    combinationOf variants [] = some [] := rfl

/-! ## C8 amended -/

theorem jsShl1_sub_one_ne_100 (k : Nat) (h : 0 < jsShl1 k - 1) :
    jsShl1 k - 1 ≠ 100 := by
  have hm : k % 32 < 32 := Nat.mod_lt _ (by omega)
  unfold jsShl1 at *
  revert h
  have : ∀ m, m < 32 → 0 < toInt32 (2 ^ m) - 1 → toInt32 (2 ^ m) - 1 ≠ 100 := by decide
  exact this (k % 32) hm

theorem requiredMask_ne_100 (ctx : DPCtx)
    (hrm : ctx.requiredMask = (if ctx.miscNames.length > 0 then
      jsShl1 ctx.miscNames.length - 1 else 0))
    (h : 0 < ctx.requiredMask) : ctx.requiredMask ≠ 100 := by
  rcases Nat.eq_zero_or_pos ctx.miscNames.length with h0 | hpos
  · rw [hrm, h0] at h; simp at h
  · rw [hrm, if_pos hpos] at h ⊢
    exact jsShl1_sub_one_ne_100 _ h

/-- C8 amended: for a catalog all of whose variants have positive size,
the `C = 0` call returns the empty combination with `totalIncome = 0` when
`requiredMask = 0`, and `NoSolution` when `requiredMask > 0` (a variant of
non-positive size instead makes the run throw, as the counterexample
records). -/
theorem C8_amended_zero_size_limit (defs : BuildingDefinitions)
    (hpos : ∀ v ∈ buildVariantsFromDefinitions defs, 0 < v.size) :
    ((mkCtx defs 0 {}).requiredMask = 0 →
      optimizeBlockIncomeFromDefinitions defs 0 {} =
        .ok { combination := [], totalIncome := 0, averageEfficiencyByType := [],
              totalSize := 0, totalStorage := 0 }) ∧
    (0 < (mkCtx defs 0 {}).requiredMask →
      optimizeBlockIncomeFromDefinitions defs 0 {} = .noSolution) := by
  have hcap : (mkCtx defs 0 {}).capacity = 0 := by with_unfolding_all rfl
  have hbase : (mkCtx defs 0 {}).baseResources = DEFAULT_BASE_RESOURCES := by
    with_unfolding_all rfl
  have hvars : (mkCtx defs 0 {}).variants = buildVariantsFromDefinitions defs := rfl
  set ctx := mkCtx defs 0 {} with hctx
  have happly : ∀ k n st i v, v ∈ ctx.variants → applyVariant ctx 0 k n st i v = st := by
    intro k n st i v hv
    have hs : 0 < v.size := hpos v (hvars ▸ hv)
    by_cases hc : st.crashed
    · simp [applyVariant, hc]
    · have hgt : ((0 : Nat) : ℚ) + v.size > (ctx.capacity : ℚ) := by
        rw [hcap]; push_cast; linarith
      have hskip : transCandidate ctx 0 k n i v = .skip := by
        rw [transCandidate, if_pos hgt]
      rw [applyVariant, if_neg (by simp [hc]), hskip]
  have hpass : runPass ctx (dpInit ctx) 0 =
      { dp := dpInit ctx, updated := [], crashed := false } := by
    unfold runPass
    refine foldlFixed _ _ _ (fun st e he => ?_)
    refine foldlFixed _ _ _ (fun st2 iv hiv => ?_)
    exact happly _ _ _ _ _ (mem_of_mem_enum hiv)
  have hrun : runDP ctx = some (dpInit ctx) := by
    unfold runDP
    rw [hcap]
    simp [runFrom, hpass, pruneUpdated]
  have hdp : dpInit ctx = [[(initKey ctx, initNode ctx)]] := by
    rw [dpInit, hcap]
    rfl
  have hrange : List.range (ctx.capacity + 1) = [0] := by rw [hcap]; rfl
  have hmoney : ¬((initKey ctx).money < 0) := by
    simp [initKey, hbase, DEFAULT_BASE_RESOURCES]
  constructor
  · intro hrm
    have hsel : selectBest ctx (dpInit ctx) =
        { bestW := 0, bestKey := some (initKey ctx), bestValue := some 0,
          bestWithAllW := -1, bestWithAllKey := Option.none,
          bestWithAllValue := Option.none } := by
      unfold selectBest
      rw [hrange, hdp]
      simp [hmoney, hrm, gtNegInf, initNode]
    have h1 : (simulateSequence []).totalIncome = 0 := by with_unfolding_all decide
    have h2 : (simulateSequence []).totalStorage = 0 := by with_unfolding_all decide
    have h3 : averageEfficiency [] (simulateSequence []) [] = [] := by
      with_unfolding_all decide
    simp only [optimizeBlockIncomeFromDefinitions]
    rw [← hctx, hrun]
    simp only [hsel]
    rw [if_neg (by simp [hrm])]
    simp only [hrm, ne_eq, not_true_eq_false, if_false, reduceIte, Int.ofNat_eq_coe,
      Nat.cast_zero]
    rw [backWalk_zero]
    simp only [List.reverse_nil, combinationOf_nil]
    simp [h1, h2, h3]
  · intro hrm
    have hrm0 : ctx.requiredMask ≠ 0 := by omega
    have hrm' : ctx.requiredMask ≠ 100 :=
      requiredMask_ne_100 ctx (by with_unfolding_all rfl) hrm
    have hwood : ¬((initKey ctx).wood = (ctx.requiredMask : ℚ)) := by
      simp only [initKey, hbase, DEFAULT_BASE_RESOURCES]
      intro hq
      have h100 : ((100 : Int) : ℚ) = (ctx.requiredMask : ℚ) := by push_cast; linarith
      exact hrm' (by exact_mod_cast h100.symm)
    have hsel : (selectBest ctx (dpInit ctx)).bestWithAllKey = Option.none := by
      unfold selectBest
      rw [hrange, hdp]
      simp [hmoney, hwood, gtNegInf, initNode]
    simp only [optimizeBlockIncomeFromDefinitions]
    rw [← hctx, hrun]
    simp [hsel, hrm0]

/-- Witness for `C8_amended_zero_size_limit` at two concrete catalogs: the
empty catalog (`requiredMask = 0`) and the one-mandatory-misc catalog
(`requiredMask = 1`). -/
theorem C8_amended_zero_size_limit_witness :
    optimizeBlockIncomeFromDefinitions ⟨[]⟩ 0 {} =
      .ok { combination := [], totalIncome := 0, averageEfficiencyByType := [],
            totalSize := 0, totalStorage := 0 } ∧
    optimizeBlockIncomeFromDefinitions oneMandatoryMiscCat 0 {} = .noSolution :=
  ⟨(C8_amended_zero_size_limit ⟨[]⟩ (by simp [buildVariantsFromDefinitions])).1
      (by with_unfolding_all decide),
   (C8_amended_zero_size_limit oneMandatoryMiscCat
      (by with_unfolding_all decide)).2 (by with_unfolding_all decide)⟩

/-! ## C9 -/

theorem res4Add_zero_left (b : Res4) : res4Add ⟨0, 0, 0, 0⟩ b = b := by
  cases b; simp [res4Add]

/-- Folding the per-block contributions of `acc ++ [e]` extends the fold of
`acc` by `e`'s contribution. -/
theorem contribFold_append (acc : List BlockEntry) (e : BlockEntry) :
    (acc ++ [e]).foldl (fun a b => res4Add a (storageContribution b.combination)) ⟨0, 0, 0, 0⟩ =
      res4Add (acc.foldl (fun a b => res4Add a (storageContribution b.combination)) ⟨0, 0, 0, 0⟩)
        (storageContribution e.combination) := by
  rw [List.foldl_append]
  rfl

theorem driverLoop_storage (defs : BuildingDefinitions) (numBlocks : Nat)
    (sizeLimit : ℚ) (opts : OptimizeOpts) (mand : List Variant) (rs ri : ℚ) :
    ∀ (r : Nat) (aggStorage : Res4) (acc : List BlockEntry) (aggIncome : ℚ)
      (res : MultiResult),
      driverLoop defs numBlocks sizeLimit opts mand rs ri r aggStorage acc aggIncome =
        .ok res →
      (∀ b ∈ acc, b.blockStorage = storageContribution b.combination) →
      aggStorage = acc.foldl
        (fun a b => res4Add a (storageContribution b.combination)) ⟨0, 0, 0, 0⟩ →
      (∀ b ∈ res.blocks, b.blockStorage = storageContribution b.combination) ∧
      res.aggregateTotalStorage = res4Add DEFAULT_BASE_RESOURCES
        (res.blocks.foldl
          (fun a b => res4Add a (storageContribution b.combination)) ⟨0, 0, 0, 0⟩) := by
  intro r
  induction r with
  | zero =>
    intro aggStorage acc aggIncome res hok hinv hfold
    rw [driverLoop] at hok
    cases hok
    exact ⟨hinv, by rw [← hfold]⟩
  | succ n ih =>
    intro aggStorage acc aggIncome res hok hinv hfold
    rw [driverLoop] at hok
    rcases hopt : optimizeBlockIncomeFromDefinitions (stripMiscMandatory defs)
        (if n = 0 then sizeLimit - rs else sizeLimit)
        { opts with startingResources := some (res4Add DEFAULT_BASE_RESOURCES aggStorage) }
      with r' | _ | _
    all_goals rw [hopt] at hok
    · simp only at hok
      refine ih _ _ _ _ hok ?_ ?_
      · intro b hb
        rcases List.mem_append.mp hb with h1 | h2
        · exact hinv b h1
        · rcases List.mem_singleton.mp h2 with rfl
          rfl
      · rw [contribFold_append, ← hfold]
    · exact absurd hok (by simp)
    · exact absurd hok (by simp)

/-- C9: whenever `optimizeMultipleBlocks` returns a result, each block's
`blockStorage` is the object-shaped storage contribution of that block's
combination (`Σ sc[axis] · count` per axis), and `aggregateTotalStorage`
equals the base resources plus those contributions summed over all blocks. -/
theorem C9_storage_aggregation (defs : BuildingDefinitions) (numBlocks : Nat)
    (sizeLimit : ℚ) (opts : OptimizeOpts) (res : MultiResult)
    (h : optimizeMultipleBlocks defs numBlocks sizeLimit opts = .ok res) :
    (∀ b ∈ res.blocks, b.blockStorage = storageContribution b.combination) ∧
    res.aggregateTotalStorage = res4Add DEFAULT_BASE_RESOURCES
      (res.blocks.foldl
        (fun a b => res4Add a (storageContribution b.combination)) ⟨0, 0, 0, 0⟩) := by
  unfold optimizeMultipleBlocks at h
  by_cases h1 : numBlocks < 1
  · rw [if_pos h1] at h
    exact absurd h (by simp)
  · rw [if_neg h1] at h
    by_cases h2 : numBlocks = 1
    · rw [if_pos h2] at h
      rcases hopt : optimizeBlockIncomeFromDefinitions defs sizeLimit opts with r' | _ | _
      all_goals rw [hopt] at h
      · simp only at h
        cases h
        constructor
        · intro b hb
          rcases List.mem_singleton.mp hb with rfl
          rfl
        · simp [res4Add_zero_left]
      · exact absurd h (by simp)
      · exact absurd h (by simp)
    · rw [if_neg h2] at h
      have := driverLoop_storage defs numBlocks sizeLimit opts
        (reservationOf defs) ((reservationOf defs).map (·.size)).sum
        ((reservationOf defs).map (·.income)).sum numBlocks ⟨0, 0, 0, 0⟩ [] 0 res ?_
        (by simp) rfl
      · exact this
      · exact h

def emptyBlockEntry : BlockEntry :=
  { blockNumber := 1
    combination := []
    totalIncome := 0
    averageEfficiencyByType := []
    totalSize := 0
    blockStorage := ⟨0, 0, 0, 0⟩ }

def emptyMultiResult : MultiResult :=
  { blocks := [emptyBlockEntry]
    aggregateTotalIncome := 0
    aggregateTotalStorage := ⟨1000, 100, 100, 100⟩
    baseStorage := DEFAULT_BASE_RESOURCES }

set_option maxRecDepth 20000 in
/-- Witness for `C9_storage_aggregation`: the empty catalog, one block,
`C = 0`. -/
theorem C9_storage_aggregation_witness :
    (∀ b ∈ emptyMultiResult.blocks, b.blockStorage = storageContribution b.combination) ∧
    emptyMultiResult.aggregateTotalStorage = res4Add DEFAULT_BASE_RESOURCES
      (emptyMultiResult.blocks.foldl
        (fun a b => res4Add a (storageContribution b.combination)) ⟨0, 0, 0, 0⟩) :=
  C9_storage_aggregation ⟨[]⟩ 1 0 {} emptyMultiResult (by with_unfolding_all decide)

/-! ## C7: stable sort and pruning properties -/

theorem sInsert_perm (lt : α → α → Bool) (x : α) (l : List α) :
    (sInsert lt x l).Perm (x :: l) := by
  induction l with
  | nil => simp [sInsert]
  | cons y ys ih =>
    rw [sInsert]
    by_cases h : lt y x
    · rw [if_pos h]
      exact ((ih.cons y).trans (List.Perm.swap x y ys))
    · rw [if_neg h]

theorem sSort_perm (lt : α → α → Bool) (l : List α) : (sSort lt l).Perm l := by
  induction l with
  | nil => rfl
  | cons x xs ih =>
    rw [sSort]
    exact (sInsert_perm lt x (sSort lt xs)).trans (ih.cons x)

theorem mem_sInsert (lt : α → α → Bool) (x a : α) (l : List α) :
    a ∈ sInsert lt x l ↔ a = x ∨ a ∈ l := by
  rw [(sInsert_perm lt x l).mem_iff, List.mem_cons]

theorem sInsert_pairwise (lt : α → α → Bool)
    (hasymm : ∀ a b, lt a b = true → lt b a = false)
    (htrans : ∀ a b c, lt b a = false → lt c b = false → lt c a = false)
    (x : α) (l : List α) (hl : l.Pairwise (fun a b => lt b a = false)) :
    (sInsert lt x l).Pairwise (fun a b => lt b a = false) := by
  induction l with
  | nil => simp [sInsert]
  | cons y ys ih =>
    rw [List.pairwise_cons] at hl
    rw [sInsert]
    by_cases h : lt y x
    · rw [if_pos h]
      rw [List.pairwise_cons]
      refine ⟨fun z hz => ?_, ih hl.2⟩
      rcases (mem_sInsert lt x z ys).mp hz with rfl | hzys
      · exact hasymm y z h
      · exact hl.1 z hzys
    · rw [if_neg h]
      rw [List.pairwise_cons]
      refine ⟨fun z hz => ?_, List.pairwise_cons.mpr hl⟩
      rcases List.mem_cons.mp hz with rfl | hzys
      · exact Bool.of_not_eq_true (by simp [h])
      · exact htrans x y z (Bool.of_not_eq_true (by simp [h])) (hl.1 z hzys)

theorem sSort_pairwise (lt : α → α → Bool)
    (hasymm : ∀ a b, lt a b = true → lt b a = false)
    (htrans : ∀ a b c, lt b a = false → lt c b = false → lt c a = false)
    (l : List α) : (sSort lt l).Pairwise (fun a b => lt b a = false) := by
  induction l with
  | nil => simp [sSort]
  | cons x xs ih => exact sInsert_pairwise lt hasymm htrans x _ ih

/-- The bonus-score comparator used by the pruner is asymmetric and its
complement is transitive. -/
theorem bonus_lt_asymm (rm : Int) : ∀ a b : DPKey × DPNode,
    (decide (bonusScore rm b < bonusScore rm a)) = true →
    (decide (bonusScore rm a < bonusScore rm b)) = false := by
  intro a b h
  simp at *
  omega

theorem bonus_lt_trans (rm : Int) : ∀ a b c : DPKey × DPNode,
    (decide (bonusScore rm a < bonusScore rm b)) = false →
    (decide (bonusScore rm b < bonusScore rm c)) = false →
    (decide (bonusScore rm a < bonusScore rm c)) = false := by
  intro a b c h1 h2
  simp at *
  omega

/-- Keys of a bucket are pairwise distinct (JS `Map` invariant). -/
def keysNodup (b : Bucket) : Prop := (b.map Prod.fst).Nodup

instance : DecidablePred keysNodup :=
  fun b => decidable_of_iff ((b.map Prod.fst).Nodup) Iff.rfl

theorem applyVariant_shape (ctx : DPCtx) (w : Nat) (k : DPKey) (n : DPNode)
    (st : PassState) (i : Nat) (v : Variant) :
    ((applyVariant ctx w k n st i v).dp = st.dp ∧
     (applyVariant ctx w k n st i v).updated = st.updated) ∨
    (∃ nw key node,
      (applyVariant ctx w k n st i v).dp =
        st.dp.set nw (alSet (st.dp.getD nw []) key node) ∧
      (applyVariant ctx w k n st i v).updated = markUpdated st.updated nw) := by
  by_cases hc : st.crashed
  · simp only [applyVariant, if_pos hc]
    simp
  · rcases h : transCandidate ctx w k n i v with _ | _ | ⟨nw, key2, node2⟩ <;>
      simp only [applyVariant, if_neg hc, h]
    · simp
    · simp
    · split
      · right; exact ⟨nw, key2, node2, rfl, rfl⟩
      · simp

theorem foldlInv {α β : Type _} {P : β → Prop} (f : β → α → β) (l : List α) (b : β)
    (hb : P b) (hstep : ∀ s x, x ∈ l → P s → P (f s x)) : P (l.foldl f b) := by
  induction l generalizing b with
  | nil => exact hb
  | cons x xs ih =>
    exact ih (f b x) (hstep b x (by simp) hb)
      (fun s y hy hs => hstep s y (by simp [hy]) hs)

theorem getD_set_ne {α : Type _} :
    ∀ (l : List α) (i j : Nat) (x d : α), i ≠ j → (l.set i x).getD j d = l.getD j d
  | [], _, _, _, _, _ => rfl
  | _ :: _, 0, 0, _, _, h => absurd rfl h
  | _ :: _, 0, _ + 1, _, _, _ => rfl
  | _ :: _, _ + 1, 0, _, _, _ => rfl
  | _ :: t, i + 1, j + 1, x, d, h =>
    getD_set_ne t i j x d (fun hc => h (by omega))

theorem getD_set_self {α : Type _} :
    ∀ (l : List α) (i : Nat) (x d : α), i < l.length → (l.set i x).getD i d = x
  | [], i, _, _, h => absurd h (by simp)
  | _ :: _, 0, _, _, _ => rfl
  | _ :: t, i + 1, x, d, h => getD_set_self t i x d (by simpa using h)

theorem set_of_length_le {α : Type _} :
    ∀ (l : List α) (i : Nat) (x : α), l.length ≤ i → l.set i x = l
  | [], _, _, _ => rfl
  | _ :: _, 0, _, h => absurd h (by simp)
  | a :: t, i + 1, x, h => by
    rw [List.set_cons_succ, set_of_length_le t i x (by simpa using h)]

theorem getD_of_length_le {α : Type _} :
    ∀ (l : List α) (i : Nat) (d : α), l.length ≤ i → l.getD i d = d
  | [], _, _, _ => rfl
  | _ :: _, 0, _, h => absurd h (by simp)
  | _ :: t, i + 1, d, h => getD_of_length_le t i d (by simpa using h)

theorem mem_markUpdated (u : List Nat) (w x : Nat) :
    x ∈ markUpdated u w ↔ x ∈ u ∨ x = w := by
  unfold markUpdated
  split
  · constructor
    · exact fun h => Or.inl h
    · rintro (h | rfl)
      · exact h
      · assumption
  · simp [or_comm]

theorem alSet_keysNodup (m : Bucket) (k : DPKey) (v : DPNode) (h : keysNodup m) :
    keysNodup (alSet m k v) := by
  unfold alSet keysNodup at *
  split
  · rw [List.map_map]
    have : m.map (Prod.fst ∘ fun e => if e.1 = k then (k, v) else e) = m.map Prod.fst := by
      apply List.map_congr_left
      intro e _
      by_cases he : e.1 = k <;> simp [he]
    rw [this]
    exact h
  · rename_i hfind
    rw [List.map_append]
    rw [List.nodup_append]
    refine ⟨h, by simp, ?_⟩
    intro x hx
    obtain ⟨e, he, rfl⟩ := List.mem_map.mp hx
    have := List.find?_eq_none.mp (Option.not_isSome_iff_eq_none.mp hfind) e he
    simp only [List.map_cons, List.map_nil, List.mem_singleton]
    intro hc
    exact this (by simp [hc])

theorem pruneMapToBeam_sublist (rm : Int) (m : Bucket) (beam : Nat) :
    (pruneMapToBeam rm m beam).Sublist m := by
  unfold pruneMapToBeam
  split
  · exact List.Sublist.refl m
  · exact List.filter_sublist m

theorem pruneMapToBeam_keysNodup (rm : Int) (m : Bucket) (beam : Nat)
    (h : keysNodup m) : keysNodup (pruneMapToBeam rm m beam) :=
  List.Nodup.sublist ((pruneMapToBeam_sublist rm m beam).map Prod.fst) h

theorem nodup_subset_length_le {α : Type _} [DecidableEq α] (l t : List α)
    (hn : l.Nodup) (hs : ∀ x ∈ l, x ∈ t) : l.length ≤ t.length := by
  calc l.length = l.toFinset.card := (List.toFinset_card_of_nodup hn).symm
    _ ≤ t.toFinset.card := Finset.card_le_card (fun x hx => by
        rw [List.mem_toFinset] at *
        exact hs x hx)
    _ ≤ t.length := t.toFinset_card_le

theorem pruneMapToBeam_length (rm : Int) (m : Bucket) (beam : Nat)
    (hn : keysNodup m) : (pruneMapToBeam rm m beam).length ≤ beam := by
  unfold pruneMapToBeam
  split
  · assumption
  · rename_i hgt
    set arr := sSort (fun a b => bonusScore rm b < bonusScore rm a) m with harr
    set toKeep := (arr.take beam).map (·.1) with htk
    have hnd : ((m.filter (fun e => e.1 ∈ toKeep)).map Prod.fst).Nodup :=
      List.Nodup.sublist ((List.filter_sublist m).map Prod.fst) hn
    have hsub : ∀ x ∈ (m.filter (fun e => e.1 ∈ toKeep)).map Prod.fst, x ∈ toKeep := by
      intro x hx
      obtain ⟨e, he, rfl⟩ := List.mem_map.mp hx
      have := List.of_mem_filter he
      simpa using this
    calc (m.filter (fun e => e.1 ∈ toKeep)).length
        = ((m.filter (fun e => e.1 ∈ toKeep)).map Prod.fst).length := by
          rw [List.length_map]
      _ ≤ toKeep.length := nodup_subset_length_le _ _ hnd hsub
      _ = (arr.take beam).length := by rw [htk, List.length_map]
      _ ≤ beam := List.length_take_le beam arr

theorem pruneMapToBeam_top (rm : Int) (m : Bucket) (beam : Nat) (hn : keysNodup m) :
    ∀ e ∈ pruneMapToBeam rm m beam, ∀ e' ∈ m, e' ∉ pruneMapToBeam rm m beam →
      bonusScore rm e' ≤ bonusScore rm e := by
  unfold pruneMapToBeam
  split
  · intro e _ e' he' hne
    exact absurd he' hne
  · intro e he e' he' hne
    set lt := fun (a b : DPKey × DPNode) => (bonusScore rm b < bonusScore rm a : Bool) with hlt
    set arr := sSort lt m with harr
    have hperm : arr.Perm m := sSort_perm lt m
    have hpw : arr.Pairwise (fun a b => lt b a = false) :=
      sSort_pairwise lt (bonus_lt_asymm rm) (bonus_lt_trans rm) m
    have harrnodup : (arr.map Prod.fst).Nodup :=
      ((hperm.map Prod.fst).nodup_iff).mpr hn
    obtain ⟨hem, hkeyb⟩ := List.mem_filter.mp he
    have hkey : e.1 ∈ (arr.take beam).map (·.1) := by simpa using hkeyb
    obtain ⟨f, hf, hfkey⟩ := List.mem_map.mp hkey
    have hfarr : f ∈ arr := List.mem_of_mem_take hf
    have hearr : e ∈ arr := hperm.mem_iff.mpr hem
    have hfe : f = e := List.inj_on_of_nodup_map harrnodup hfarr hearr hfkey
    subst hfe
    have he'arr : e' ∈ arr := hperm.mem_iff.mpr he'
    have he'nk : e'.1 ∉ (arr.take beam).map (·.1) := by
      intro hc
      exact hne (List.mem_filter.mpr ⟨he', by simpa using hc⟩)
    have hsplit := List.take_append_drop beam arr
    have he'drop : e' ∈ arr.drop beam := by
      rcases List.mem_append.mp (by rw [hsplit]; exact he'arr) with h1 | h2
      · exact absurd (List.mem_map_of_mem (·.1) h1) he'nk
      · exact h2
    have hpw2 : (arr.take beam ++ arr.drop beam).Pairwise (fun a b => lt b a = false) := by
      rw [hsplit]; exact hpw
    have hrel := (List.pairwise_append.mp hpw2).2.2 f hf e' he'drop
    simp only [hlt] at hrel
    simpa using hrel

/-- One DP pass preserves key-uniqueness of every bucket and leaves the
buckets it did not mark as updated untouched. -/
theorem runPass_shape (ctx : DPCtx) (dp : List Bucket) (w : Nat)
    (hdp : ∀ idx, keysNodup (dp.getD idx [])) :
    (∀ idx, keysNodup ((runPass ctx dp w).dp.getD idx [])) ∧
    (∀ idx, idx ∉ (runPass ctx dp w).updated →
      (runPass ctx dp w).dp.getD idx [] = dp.getD idx []) := by
  unfold runPass
  refine foldlInv (P := fun (st : PassState) =>
    (∀ idx, keysNodup (st.dp.getD idx [])) ∧
    (∀ idx, idx ∉ st.updated → st.dp.getD idx [] = dp.getD idx []))
    _ _ _ ⟨hdp, fun idx _ => rfl⟩ ?_
  intro st e _ hst
  refine foldlInv (P := fun (st2 : PassState) =>
    (∀ idx, keysNodup (st2.dp.getD idx [])) ∧
    (∀ idx, idx ∉ st2.updated → st2.dp.getD idx [] = dp.getD idx [])) _ _ _ hst ?_
  intro st2 iv _ hst2
  rcases applyVariant_shape ctx w e.1 e.2 st2 iv.1 iv.2 with ⟨h1, h2⟩ | ⟨nw, key, node, h1, h2⟩
  · rw [h1, h2]
    exact hst2
  · constructor
    · intro idx
      rw [h1]
      by_cases hidx : idx = nw
      · subst hidx
        by_cases hlen : idx < st2.dp.length
        · rw [getD_set_self _ _ _ _ hlen]
          exact alSet_keysNodup _ _ _ (hst2.1 idx)
        · rw [set_of_length_le _ _ _ (Nat.le_of_not_lt hlen)]
          exact hst2.1 idx
      · rw [getD_set_ne _ _ _ _ _ (fun hc => hidx hc.symm)]
        exact hst2.1 idx
    · intro idx hidx
      rw [h2, mem_markUpdated] at hidx
      push_neg at hidx
      rw [h1, getD_set_ne _ _ _ _ _ (fun hc => hidx.2 hc.symm)]
      exact hst2.2 idx hidx.1

/-- Folding the per-index prune over the updated set keeps key-uniqueness,
either leaves a bucket unchanged or bounds it by the beam, and bounds every
updated bucket by the beam. -/
theorem pruneFold_bound (rm : Int) (beam : Nat) :
    ∀ (upd : List Nat) (d : List Bucket),
      (∀ idx, keysNodup (d.getD idx [])) →
      ∀ idx,
        keysNodup ((upd.foldl (fun d2 j =>
          d2.set j (pruneMapToBeam rm (d2.getD j []) beam)) d).getD idx []) ∧
        ((upd.foldl (fun d2 j =>
          d2.set j (pruneMapToBeam rm (d2.getD j []) beam)) d).getD idx [] =
            d.getD idx [] ∨
         ((upd.foldl (fun d2 j =>
          d2.set j (pruneMapToBeam rm (d2.getD j []) beam)) d).getD idx []).length ≤ beam) ∧
        (idx ∈ upd →
         ((upd.foldl (fun d2 j =>
          d2.set j (pruneMapToBeam rm (d2.getD j []) beam)) d).getD idx []).length ≤ beam)
  | [], d, hd, idx => ⟨hd idx, Or.inl rfl, by simp⟩
  | j :: rest, d, hd, idx => by
    rw [List.foldl_cons]
    set d' := d.set j (pruneMapToBeam rm (d.getD j []) beam) with hd'
    have hd'nodup : ∀ i, keysNodup (d'.getD i []) := by
      intro i
      by_cases hij : i = j
      · subst hij
        by_cases hlen : i < d.length
        · rw [hd', getD_set_self _ _ _ _ hlen]
          exact pruneMapToBeam_keysNodup _ _ _ (hd i)
        · rw [hd', set_of_length_le _ _ _ (Nat.le_of_not_lt hlen)]
          exact hd i
      · rw [hd', getD_set_ne _ _ _ _ _ (fun hc => hij hc.symm)]
        exact hd i
    have hd'j : (d'.getD j []).length ≤ beam := by
      by_cases hlen : j < d.length
      · rw [hd', getD_set_self _ _ _ _ hlen]
        exact pruneMapToBeam_length _ _ _ (hd j)
      · rw [hd', set_of_length_le _ _ _ (Nat.le_of_not_lt hlen),
          getD_of_length_le _ _ _ (Nat.le_of_not_lt hlen)]
        simp
    obtain ⟨ih1, ih2, ih3⟩ := pruneFold_bound rm beam rest d' hd'nodup idx
    refine ⟨ih1, ?_, ?_⟩
    · rcases ih2 with h | h
      · by_cases hij : idx = j
        · subst hij
          right
          rw [h]
          exact hd'j
        · left
          rw [h, hd', getD_set_ne _ _ _ _ _ (fun hc => hij hc.symm)]
      · exact Or.inr h
    · intro hmem
      rcases List.mem_cons.mp hmem with rfl | hrest
      · rcases ih2 with h | h
        · rw [h]
          exact hd'j
        · exact h
      · exact ih3 hrest

theorem runFrom_bound (ctx : DPCtx) :
    ∀ (remaining w : Nat) (dp dp' : List Bucket),
      (∀ idx, keysNodup (dp.getD idx []) ∧ (dp.getD idx []).length ≤ ctx.beamWidth) →
      runFrom ctx dp w remaining = some dp' →
      ∀ idx, keysNodup (dp'.getD idx []) ∧ (dp'.getD idx []).length ≤ ctx.beamWidth
  | 0, w, dp, dp', hinv, hrun => by
    rw [runFrom] at hrun
    cases hrun
    exact hinv
  | r + 1, w, dp, dp', hinv, hrun => by
    rw [runFrom] at hrun
    by_cases hcr : (runPass ctx dp w).crashed
    · rw [if_pos hcr] at hrun
      exact absurd hrun (by simp)
    · rw [if_neg hcr] at hrun
      have hshape := runPass_shape ctx dp w (fun idx => (hinv idx).1)
      have hbound := pruneFold_bound ctx.requiredMask ctx.beamWidth
        (runPass ctx dp w).updated (runPass ctx dp w).dp hshape.1
      refine runFrom_bound ctx r (w + 1) _ dp' (fun idx => ?_) hrun
      obtain ⟨hb1, hb2, hb3⟩ := hbound idx
      refine ⟨hb1, ?_⟩
      by_cases hupd : idx ∈ (runPass ctx dp w).updated
      · exact hb3 hupd
      · rcases hb2 with h | h
        · rw [show pruneUpdated ctx (runPass ctx dp w) =
            (runPass ctx dp w).updated.foldl (fun d2 j =>
              d2.set j (pruneMapToBeam ctx.requiredMask (d2.getD j []) ctx.beamWidth))
              (runPass ctx dp w).dp from rfl, h, hshape.2 idx hupd]
          exact (hinv idx).2
        · exact h

theorem replicate_getD_nil (n i : Nat) :
    (List.replicate n ([] : Bucket)).getD i [] = [] := by
  by_cases h : i < n
  · rw [List.getD_eq_getElem _ _ (by simpa using h)]
    simp
  · rw [getD_of_length_le _ _ _ (by simpa using Nat.le_of_not_lt h)]

theorem dpInit_inv (ctx : DPCtx) (hbeam : 1 ≤ ctx.beamWidth) :
    ∀ idx, keysNodup ((dpInit ctx).getD idx []) ∧
      ((dpInit ctx).getD idx []).length ≤ ctx.beamWidth := by
  intro idx
  cases idx with
  | zero =>
    constructor
    · simp [dpInit, keysNodup]
    · simpa [dpInit] using hbeam
  | succ n =>
    have : (dpInit ctx).getD (n + 1) [] = [] := by
      simp only [dpInit, List.getD_cons_succ]
      exact replicate_getD_nil _ _
    rw [this]
    exact ⟨by simp [keysNodup], by simp⟩

/-- C7: (i) a pruned bucket (with the `Map` key-uniqueness invariant) holds
at most `beamWidth` entries; (ii) the retained entries form a top set for
the score-plus-`1e9`-mask-bonus ordering: every retained entry scores at
least every deleted one; (iii) after the DP outer loop completes without
crashing, every bucket — in particular every bucket that was ever pruned —
holds at most `beamWidth` entries (for `beamWidth ≥ 1`). -/
theorem C7_beam_prune :
    (∀ (rm : Int) (m : Bucket) (beam : Nat), keysNodup m →
      (pruneMapToBeam rm m beam).length ≤ beam) ∧
    (∀ (rm : Int) (m : Bucket) (beam : Nat), keysNodup m →
      ∀ e ∈ pruneMapToBeam rm m beam, ∀ e' ∈ m, e' ∉ pruneMapToBeam rm m beam →
        bonusScore rm e' ≤ bonusScore rm e) ∧
    (∀ (ctx : DPCtx) (dp' : List Bucket), 1 ≤ ctx.beamWidth →
      runDP ctx = some dp' → ∀ idx, ((dp'.getD idx []).length ≤ ctx.beamWidth)) :=
  ⟨pruneMapToBeam_length,
   pruneMapToBeam_top,
   fun ctx dp' hbeam hrun idx =>
     (runFrom_bound ctx (ctx.capacity + 1) 0 (dpInit ctx) dp'
       (dpInit_inv ctx hbeam) hrun idx).2⟩

def wNodeA : DPNode :=
  { prevKey := Option.none, prevW := -1, variantIndex := -1, incomeNeutral := 0,
    houseBaseIncome := 0, totalHouseCapacity := 0, businessIncomeBaseArr := [],
    businessCapacityArr := [], countsArr := [], totalStorage := 0, total := 5,
    preferenceCapacity := [] }

def wNodeB : DPNode := { wNodeA with total := 7 }

def wKeyA : DPKey := ⟨0, 0, 0, 0, 0, 0, []⟩

def wKeyB : DPKey := ⟨1, 0, 0, 0, 0, 0, []⟩

def wBucket : Bucket := [(wKeyA, wNodeA), (wKeyB, wNodeB)]

def wInitNode : DPNode := { wNodeA with total := 0 }

def wEmptyDp : List Bucket := [[(⟨0, 1000, 100, 100, 100, 0, []⟩, wInitNode)]]

set_option maxRecDepth 20000 in
/-- Witness for `C7_beam_prune` on a two-entry bucket pruned to beam 1 and
on the full DP of the empty catalog. -/
theorem C7_beam_prune_witness :
    (pruneMapToBeam 0 wBucket 1).length ≤ 1 ∧
    bonusScore 0 (wKeyA, wNodeA) ≤ bonusScore 0 (wKeyB, wNodeB) ∧
    ((wEmptyDp.getD 0 []).length ≤ (mkCtx ⟨[]⟩ 0 {}).beamWidth) :=
  ⟨C7_beam_prune.1 0 wBucket 1 (by with_unfolding_all decide),
   C7_beam_prune.2.1 0 wBucket 1 (by with_unfolding_all decide)
     (wKeyB, wNodeB) (by with_unfolding_all decide)
     (wKeyA, wNodeA) (by with_unfolding_all decide) (by with_unfolding_all decide),
   C7_beam_prune.2.2 (mkCtx ⟨[]⟩ 0 {}) wEmptyDp (by with_unfolding_all decide)
     (by with_unfolding_all decide) 0⟩

/-! ## C3: back-pointer invariants and the size budget -/

theorem succState_prevW (ctx : DPCtx) (w : Nat) (key : DPKey) (node : DPNode)
    (i : Nat) (v : Variant) :
    (succState ctx w key node i v).2.prevW = (w : Int) ∧
    (succState ctx w key node i v).2.variantIndex = (i : Int) := ⟨rfl, rfl⟩

theorem transCandidate_cand (ctx : DPCtx) (w : Nat) (key : DPKey) (node : DPNode)
    (i : Nat) (v : Variant) (nw : Nat) (nk : DPKey) (nn : DPNode)
    (h : transCandidate ctx w key node i v = .cand nw nk nn) :
    (nw : ℚ) = (w : ℚ) + v.size ∧ nw ≤ ctx.capacity ∧
    nn = (succState ctx w key node i v).2 := by
  unfold transCandidate at h
  dsimp only at h
  split at h
  · exact absurd h (by simp)
  split at h
  · exact absurd h (by simp)
  split at h
  · exact absurd h (by simp)
  split at h
  · exact absurd h (by simp)
  rename_i hgt hres hstaff hcr
  push_neg at hgt
  rw [not_or, not_lt, not_not] at hcr
  obtain ⟨hnn, hden⟩ := hcr
  injection h with h1 h2 h3
  have hnum : ((w : ℚ) + v.size).num = (((w : ℚ) + v.size).num.toNat : Int) :=
    (Int.toNat_of_nonneg (Rat.num_nonneg.mpr hnn)).symm
  have hq : (((((w : ℚ) + v.size)).num.toNat : Int) : ℚ) = (w : ℚ) + v.size := by
    calc ((((w : ℚ) + v.size).num.toNat : Int) : ℚ)
        = (((w : ℚ) + v.size).num : ℚ) := by rw [← hnum]
      _ = (w : ℚ) + v.size := by
          conv_rhs => rw [← Rat.num_div_den ((w : ℚ) + v.size)]
          rw [hden]
          simp
  refine ⟨?_, ?_, h3.symm⟩
  · rw [← h1]
    exact_mod_cast hq
  · rw [← h1]
    have h2c : ((((w : ℚ) + v.size).num.toNat : Int) : ℚ) ≤ ((ctx.capacity : Nat) : ℚ) := by
      rw [hq]; exact hgt
    exact_mod_cast h2c

theorem mem_alSet (m : Bucket) (k : DPKey) (v : DPNode) (e : DPKey × DPNode)
    (h : e ∈ alSet m k v) : e ∈ m ∨ e = (k, v) := by
  unfold alSet at h
  split at h
  · obtain ⟨e', he', heq⟩ := List.mem_map.mp h
    by_cases hk : e'.1 = k
    · rw [if_pos hk] at heq
      exact Or.inr heq.symm
    · rw [if_neg hk] at heq
      exact Or.inl (heq ▸ he')
  · rcases List.mem_append.mp h with h1 | h2
    · exact Or.inl h1
    · exact Or.inr (List.mem_singleton.mp h2)

theorem alGet?_mem (b : Bucket) (k : DPKey) (n : DPNode)
    (h : alGet? b k = some n) : (k, n) ∈ b := by
  unfold alGet? at h
  rcases hfind : b.find? (fun e => e.1 = k) with _ | e
  · rw [hfind] at h
    exact absurd h (by simp)
  · rw [hfind] at h
    have hmem := List.mem_of_find?_eq_some hfind
    have hkey := List.find?_some hfind
    simp only [decide_eq_true_eq] at hkey
    simp only [Option.map] at h
    injection h with h
    have : e = (k, n) := by
      cases e
      simp_all
    exact this ▸ hmem

theorem mem_enumFrom_get? {α : Type _} :
    ∀ (l : List α) (n : Nat) (p : Nat × α), p ∈ l.enumFrom n →
      n ≤ p.1 ∧ l.get? (p.1 - n) = some p.2
  | [], _, _, h => absurd h (List.not_mem_nil _)
  | x :: xs, n, p, h => by
    rw [List.enumFrom] at h
    rcases List.mem_cons.mp h with rfl | h2
    · simp
    · obtain ⟨hle, hget⟩ := mem_enumFrom_get? xs (n + 1) p h2
      refine ⟨by omega, ?_⟩
      have : p.1 - n = (p.1 - (n + 1)) + 1 := by omega
      rw [this, List.get?_cons_succ]
      exact hget

theorem mem_enum_get? {α : Type _} (l : List α) (p : Nat × α) (h : p ∈ l.enum) :
    l.get? p.1 = some p.2 := by
  have := mem_enumFrom_get? l 0 p h
  simpa using this.2

/-- The back-pointer well-formedness of a stored node: a node with a
variant index points to a real variant whose size is the distance between
its bucket and its parent's bucket; a rootless node sits in bucket 0. -/
def NodeOK (variants : List Variant) (capacity : Nat) (w : Nat) (n : DPNode) : Prop :=
  (n.variantIndex < 0 → w = 0) ∧
  (0 ≤ n.variantIndex →
    0 ≤ n.prevW ∧ n.prevW ≤ (capacity : Int) ∧
    ∃ vv, variants.get? n.variantIndex.toNat = some vv ∧
      vv.size = (w : ℚ) - (n.prevW : ℚ))

def DPOK (variants : List Variant) (capacity : Nat) (dp : List Bucket) : Prop :=
  ∀ w, ∀ e ∈ dp.getD w [], NodeOK variants capacity w e.2

theorem applyVariant_DPOK (ctx : DPCtx) (w : Nat) (k : DPKey) (n : DPNode)
    (st : PassState) (i : Nat) (v : Variant) (hw : w ≤ ctx.capacity)
    (hiv : ctx.variants.get? i = some v)
    (hok : DPOK ctx.variants ctx.capacity st.dp) :
    DPOK ctx.variants ctx.capacity (applyVariant ctx w k n st i v).dp := by
  by_cases hc : st.crashed
  · simp only [applyVariant, if_pos hc]
    exact hok
  · rcases h : transCandidate ctx w k n i v with _ | _ | ⟨nw, key2, node2⟩ <;>
      simp only [applyVariant, if_neg hc, h]
    · exact hok
    · exact hok
    · obtain ⟨hnw, hcap2, hsucc⟩ := transCandidate_cand ctx w k n i v nw key2 node2 h
      split
      · intro w' e he
        by_cases hww : w' = nw
        · subst hww
          by_cases hlen : w' < st.dp.length
          · rw [getD_set_self _ _ _ _ hlen] at he
            rcases mem_alSet _ _ _ _ he with hmem | heq
            · exact hok w' e hmem
            · subst heq
              constructor
              · intro hlt
                rw [hsucc, (succState_prevW ctx w k n i v).2] at hlt
                exact absurd hlt (by omega)
              · intro _
                rw [hsucc, (succState_prevW ctx w k n i v).1,
                  (succState_prevW ctx w k n i v).2]
                refine ⟨by omega, by exact_mod_cast hw, v, by simpa using hiv, ?_⟩
                have : ((w' : Nat) : ℚ) = (w : ℚ) + v.size := hnw
                push_cast
                linarith
          · rw [set_of_length_le _ _ _ (Nat.le_of_not_lt hlen)] at he
            exact hok w' e he
        · rw [getD_set_ne _ _ _ _ _ (fun hc2 => hww hc2.symm)] at he
          exact hok w' e he
      · exact hok

theorem runPass_DPOK (ctx : DPCtx) (dp : List Bucket) (w : Nat)
    (hw : w ≤ ctx.capacity) (hok : DPOK ctx.variants ctx.capacity dp) :
    DPOK ctx.variants ctx.capacity (runPass ctx dp w).dp := by
  unfold runPass
  refine foldlInv (P := fun (st : PassState) => DPOK ctx.variants ctx.capacity st.dp)
    _ _ _ hok ?_
  intro st e _ hst
  refine foldlInv (P := fun (st2 : PassState) => DPOK ctx.variants ctx.capacity st2.dp)
    _ _ _ hst ?_
  intro st2 iv hivmem hst2
  exact applyVariant_DPOK ctx w e.1 e.2 st2 iv.1 iv.2 hw
    (mem_enum_get? _ _ hivmem) hst2

theorem pruneFold_DPOK (ctx : DPCtx) (rm : Int) (beam : Nat) :
    ∀ (upd : List Nat) (d : List Bucket), DPOK ctx.variants ctx.capacity d →
      DPOK ctx.variants ctx.capacity
        (upd.foldl (fun d2 j => d2.set j (pruneMapToBeam rm (d2.getD j []) beam)) d)
  | [], d, hok => hok
  | j :: rest, d, hok => by
    rw [List.foldl_cons]
    refine pruneFold_DPOK ctx rm beam rest _ ?_
    intro w' e he
    by_cases hww : w' = j
    · subst hww
      by_cases hlen : w' < d.length
      · rw [getD_set_self _ _ _ _ hlen] at he
        exact hok w' e ((pruneMapToBeam_sublist rm _ beam).mem he)
      · rw [set_of_length_le _ _ _ (Nat.le_of_not_lt hlen)] at he
        exact hok w' e he
    · rw [getD_set_ne _ _ _ _ _ (fun hc2 => hww hc2.symm)] at he
      exact hok w' e he

theorem runFrom_DPOK (ctx : DPCtx) :
    ∀ (remaining w : Nat) (dp dp' : List Bucket),
      w + remaining ≤ ctx.capacity + 1 →
      DPOK ctx.variants ctx.capacity dp →
      runFrom ctx dp w remaining = some dp' →
      DPOK ctx.variants ctx.capacity dp'
  | 0, w, dp, dp', _, hok, hrun => by
    rw [runFrom] at hrun
    cases hrun
    exact hok
  | r + 1, w, dp, dp', hle, hok, hrun => by
    rw [runFrom] at hrun
    by_cases hcr : (runPass ctx dp w).crashed
    · rw [if_pos hcr] at hrun
      exact absurd hrun (by simp)
    · rw [if_neg hcr] at hrun
      refine runFrom_DPOK ctx r (w + 1) _ dp' (by omega) ?_ hrun
      exact pruneFold_DPOK ctx ctx.requiredMask ctx.beamWidth _ _
        (runPass_DPOK ctx dp w (by omega) hok)

theorem runDP_DPOK (ctx : DPCtx) (dp' : List Bucket)
    (hrun : runDP ctx = some dp') : DPOK ctx.variants ctx.capacity dp' := by
  refine runFrom_DPOK ctx (ctx.capacity + 1) 0 (dpInit ctx) dp' (by omega) ?_ hrun
  intro w e he
  cases w with
  | zero =>
    simp only [dpInit, List.getD_cons_zero] at he
    rcases List.mem_singleton.mp he with rfl
    exact ⟨fun _ => rfl, fun hge => absurd hge (by simp [initNode])⟩
  | succ n =>
    rw [show (dpInit ctx).getD (n + 1) [] = [] from by
      simp only [dpInit, List.getD_cons_succ]; exact replicate_getD_nil _ _] at he
    exact absurd he (List.not_mem_nil e)

theorem backWalk_sum (ctx : DPCtx) (dp : List Bucket)
    (hok : DPOK ctx.variants ctx.capacity dp) :
    ∀ (fuel : Nat) (curW : Int) (curKey : Option DPKey) (seq : List Variant),
      0 ≤ curW →
      backWalk ctx dp fuel curW curKey = some seq →
      (seq.map (fun v => v.size)).sum ≤ (curW : ℚ)
  | 0, curW, curKey, seq, h0, h => by
    rw [backWalk] at h
    split at h
    · exact absurd h (by simp)
    · cases h
      simp only [List.map_nil, List.sum_nil]
      exact_mod_cast h0
  | fuel + 1, curW, curKey, seq, h0, h => by
    rw [backWalk.eq_def] at h
    dsimp only at h
    split at h
    case isTrue hgt =>
      cases curKey with
      | none =>
        cases h
        simp only [List.map_nil, List.sum_nil]
        exact_mod_cast h0
      | some k =>
        dsimp only at h
        cases hget : alGet? (dp.getD curW.toNat []) k with
        | none =>
          rw [hget] at h
          cases h
          simp only [List.map_nil, List.sum_nil]
          exact_mod_cast h0
        | some node =>
          rw [hget] at h
          dsimp only at h
          have hmem := alGet?_mem _ _ _ hget
          have hnode := hok curW.toNat (k, node) hmem
          cases hbw : backWalk ctx dp fuel node.prevW node.prevKey with
          | none =>
            rw [hbw] at h
            exact absurd h (by simp)
          | some tail =>
            rw [hbw] at h
            dsimp only at h
            split at h
            case isTrue hvge =>
              obtain ⟨hp0, hpcap, vv, hvv, hsz⟩ := hnode.2 hvge
              rw [hvv] at h
              cases h
              have hih := backWalk_sum ctx dp hok fuel node.prevW node.prevKey
                tail hp0 hbw
              have hc : ((curW.toNat : Nat) : ℚ) = (curW : ℚ) := by
                exact_mod_cast congrArg (Int.cast : Int → ℚ) (Int.toNat_of_nonneg h0)
              simp only [List.map_cons, List.sum_cons]
              linarith [hih, hsz, hc]
            case isFalse hvlt =>
              push_neg at hvlt
              have h00 : curW.toNat = 0 := hnode.1 hvlt
              exact absurd h00 (by omega)
    case isFalse hle =>
      cases h
      have hz : curW = 0 := le_antisymm (by omega) h0
      simp [hz]

theorem jsFloor_eq_floor (q : ℚ) : jsFloor q = ⌊q⌋ := by
  unfold jsFloor
  rw [Int.fdiv_eq_ediv _ (Int.ofNat_nonneg _), Rat.floor_def]

theorem capacity_le_sizeLimit (C : ℚ) (hC : 0 ≤ C) :
    (((max 0 (jsFloor C)).toNat : Nat) : ℚ) ≤ C := by
  rcases le_or_lt 0 (jsFloor C) with h | h
  · rw [max_eq_right h]
    have h2 : ((jsFloor C).toNat : ℚ) = ((jsFloor C : Int) : ℚ) := by
      exact_mod_cast congrArg (Int.cast : Int → ℚ) (Int.toNat_of_nonneg h)
    rw [h2, jsFloor_eq_floor]
    exact Int.floor_le C
  · rw [max_eq_left h.le]
    simpa using hC

def BestAccOK (ctx : DPCtx) (acc : BestAcc) : Prop :=
  acc.bestW ≤ ctx.capacity ∧
  (acc.bestWithAllKey.isSome →
    0 ≤ acc.bestWithAllW ∧ acc.bestWithAllW ≤ (ctx.capacity : Int))

theorem selectBest_bounds (ctx : DPCtx) (dp : List Bucket) :
    BestAccOK ctx (selectBest ctx dp) := by
  unfold selectBest
  refine foldlInv (P := BestAccOK ctx) _ _ _ ⟨Nat.zero_le _, by intro h; simp at h⟩ ?_
  intro acc w hw hacc
  have hwle : w ≤ ctx.capacity := by
    have := List.mem_range.mp hw
    omega
  refine foldlInv (P := BestAccOK ctx) _ _ _ hacc ?_
  intro a e _ ha
  dsimp only
  by_cases h1 : e.1.money < 0
  · rw [if_pos h1]
    exact ha
  · rw [if_neg h1]
    split
    · split
      · refine ⟨?_, ?_⟩ <;> dsimp only
        · exact hwle
        · intro _
          exact ⟨Int.ofNat_nonneg w, by simpa using Int.ofNat_le.mpr hwle⟩
      · refine ⟨?_, ?_⟩ <;> dsimp only
        · exact ha.1
        · intro _
          exact ⟨Int.ofNat_nonneg w, by simpa using Int.ofNat_le.mpr hwle⟩
    · split
      · refine ⟨?_, ?_⟩ <;> dsimp only
        · exact hwle
        · intro hk
          exact ha.2 hk
      · exact ha

theorem backWalk_mem (ctx : DPCtx) (dp : List Bucket) :
    ∀ (fuel : Nat) (curW : Int) (curKey : Option DPKey) (seq : List Variant),
      backWalk ctx dp fuel curW curKey = some seq → ∀ v ∈ seq, v ∈ ctx.variants
  | 0, curW, curKey, seq, h => by
    rw [backWalk] at h
    split at h
    · exact absurd h (by simp)
    · cases h
      intro v hv
      exact absurd hv (List.not_mem_nil v)
  | fuel + 1, curW, curKey, seq, h => by
    rw [backWalk.eq_def] at h
    dsimp only at h
    split at h
    case isTrue hgt =>
      cases curKey with
      | none =>
        cases h
        intro v hv
        exact absurd hv (List.not_mem_nil v)
      | some k =>
        dsimp only at h
        cases hget : alGet? (dp.getD curW.toNat []) k with
        | none =>
          rw [hget] at h
          cases h
          intro v hv
          exact absurd hv (List.not_mem_nil v)
        | some node =>
          rw [hget] at h
          dsimp only at h
          cases hbw : backWalk ctx dp fuel node.prevW node.prevKey with
          | none =>
            rw [hbw] at h
            exact absurd h (by simp)
          | some tail =>
            rw [hbw] at h
            dsimp only at h
            split at h
            case isTrue hvge =>
              cases hv : ctx.variants.get? node.variantIndex.toNat with
              | none =>
                rw [hv] at h
                exact absurd h (by simp)
              | some vv =>
                rw [hv] at h
                cases h
                intro v hvm
                rcases List.mem_cons.mp hvm with rfl | hvt
                · exact List.get?_mem hv
                · exact backWalk_mem ctx dp fuel node.prevW node.prevKey _ hbw v hvt
            case isFalse =>
              cases h
              intro v hv
              exact backWalk_mem ctx dp fuel node.prevW node.prevKey _ hbw v hv
    case isFalse =>
      cases h
      intro v hv
      exact absurd hv (List.not_mem_nil v)

theorem mem_foldr_one_group (t : String) :
    ∀ (bds : List (String × BuildingDefinition)) (acc : List Variant) (v : Variant),
      v ∈ bds.foldr (fun bd acc' => expandBuilding t bd.1 bd.2 ++ acc') acc ↔
        (∃ bd ∈ bds, v ∈ expandBuilding t bd.1 bd.2) ∨ v ∈ acc
  | [], acc, v => by simp
  | bd :: rest, acc, v => by
    rw [List.foldr_cons, List.mem_append, mem_foldr_one_group t rest acc v]
    simp only [List.mem_cons]
    constructor
    · rintro (h | ⟨b, hb, hvb⟩ | h)
      · exact Or.inl ⟨bd, Or.inl rfl, h⟩
      · exact Or.inl ⟨b, Or.inr hb, hvb⟩
      · exact Or.inr h
    · rintro (⟨b, rfl | hb, hvb⟩ | h)
      · exact Or.inl hvb
      · exact Or.inr (Or.inl ⟨b, hb, hvb⟩)
      · exact Or.inr (Or.inr h)

theorem mem_buildVariants (defs : BuildingDefinitions) (v : Variant) :
    v ∈ buildVariantsFromDefinitions defs ↔
      ∃ p ∈ flatBuildings defs, v ∈ expandBuilding p.1 p.2.1 p.2.2 := by
  unfold buildVariantsFromDefinitions flatBuildings
  generalize defs.buildingTypes = gs
  induction gs with
  | nil => simp
  | cons tg rest ih =>
    rw [List.foldr_cons, mem_foldr_one_group tg.1 tg.2 _ v]
    simp only [List.flatMap_cons, List.mem_append, List.mem_map]
    constructor
    · rintro (⟨bd, hbd, hvb⟩ | h)
      · exact ⟨(tg.1, bd.1, bd.2), Or.inl ⟨bd, hbd, rfl⟩, hvb⟩
      · obtain ⟨p, hp, hvp⟩ := ih.mp h
        exact ⟨p, Or.inr hp, hvp⟩
    · rintro ⟨p, ⟨bd, hbd, rfl⟩ | hp, hvp⟩
      · exact Or.inl ⟨bd, hbd, hvp⟩
      · exact Or.inr (ih.mpr ⟨p, hp, hvp⟩)

theorem expandUpgrades_fields (t n : String) (d : BuildingDefinition)
    (bs : ℚ) (st : StorageVal) (pf : Option (List String)) (c : ResourceCost) :
    ∀ (ups : List BuildingUpgrade) (accI curW : ℚ) (v : Variant),
      v ∈ expandUpgrades t n d bs st pf c ups accI curW →
      v.name = n ∧ v.size = bs ∧ v.type = t ∧
        (v.mandatory = true → d.mandatory = true ∨ ∃ up ∈ ups, up.mandatory = true)
  | [], _, _, v => by
    intro h
    exact absurd h (List.not_mem_nil v)
  | up :: rest, accI, curW, v => by
    intro h
    rw [expandUpgrades] at h
    rcases List.mem_cons.mp h with rfl | ht
    · refine ⟨rfl, rfl, rfl, ?_⟩
      intro hm
      dsimp only at hm
      rcases Bool.or_eq_true_iff.mp hm with h1 | h1
      · exact Or.inr ⟨up, List.mem_cons_self up rest, h1⟩
      · exact Or.inl h1
    · obtain ⟨h1, h2, h3, h4⟩ := expandUpgrades_fields t n d bs st pf c rest _ _ v ht
      refine ⟨h1, h2, h3, fun hm => ?_⟩
      rcases h4 hm with h5 | ⟨u, hu, hum⟩
      · exact Or.inl h5
      · exact Or.inr ⟨u, List.mem_cons_of_mem up hu, hum⟩

theorem expandBuilding_fields (t n : String) (d : BuildingDefinition) (v : Variant)
    (h : v ∈ expandBuilding t n d) :
    v.name = n ∧ v.size = sizeOrOne d.size ∧ v.type = t ∧
      (v.mandatory = true →
        d.mandatory = true ∨ ∃ up ∈ d.upgrades.getD [], up.mandatory = true) := by
  rw [expandBuilding] at h
  rcases List.mem_cons.mp h with rfl | ht
  · exact ⟨rfl, rfl, rfl, fun hm => Or.inl hm⟩
  · obtain ⟨h1, h2, h3, h4⟩ := expandUpgrades_fields t n d _ _ _ _ _ _ _ v ht
    refine ⟨h1, h2, h3, fun hm => ?_⟩
    rcases h4 hm with h5 | ⟨u, hu, hum⟩
    · exact Or.inl h5
    · exact Or.inr ⟨u, ((sSort_perm _ _).mem_iff).mp hu, hum⟩

theorem sameName_sameSize (defs : BuildingDefinitions)
    (h : (catalogNames defs).Nodup) (u v : Variant)
    (hu : u ∈ buildVariantsFromDefinitions defs)
    (hv : v ∈ buildVariantsFromDefinitions defs) (hn : u.name = v.name) :
    u.size = v.size := by
  obtain ⟨p, hp, hup⟩ := (mem_buildVariants defs u).mp hu
  obtain ⟨q, hq, hvq⟩ := (mem_buildVariants defs v).mp hv
  obtain ⟨hn1, hs1, -, -⟩ := expandBuilding_fields p.1 p.2.1 p.2.2 u hup
  obtain ⟨hn2, hs2, -, -⟩ := expandBuilding_fields q.1 q.2.1 q.2.2 v hvq
  have hpq : p = q :=
    List.inj_on_of_nodup_map h hp hq (by rw [← hn1, ← hn2, hn])
  rw [hs1, hs2, hpq]

/-- The size a combination entry reports for a tally key: the size of the
variant found for the `parseComboKey` re-parse of the key (`0` if the lookup
fails: that run crashes anyway). -/
def lookupSize (variants : List Variant) (k : String × ℚ) : ℚ :=
  match parseComboKey k.1 k.2 with
  | (_, Option.none) => 0
  | (pn, some lv) =>
    match variants.find? (fun x => x.name = pn ∧ x.level = lv) with
    | some u => u.size
    | Option.none => 0

theorem splitOnChar_of_not_mem (sep : Char) :
    ∀ (l : List Char), sep ∉ l → splitOnChar sep l = [l]
  | [], _ => rfl
  | c :: cs, h => by
    have hc : ¬ c = sep := fun hce => h (hce ▸ List.mem_cons_self c cs)
    have ht := splitOnChar_of_not_mem sep cs (fun hm => h (List.mem_cons_of_mem c hm))
    rw [splitOnChar, ht]
    simp [hc]

/-- For a colon-free name the key round trip is the identity. -/
theorem parseComboKey_of_colonFree (name : String) (level : ℚ)
    (h : ':' ∉ name.data) : parseComboKey name level = (name, some level) := by
  unfold parseComboKey
  rw [splitOnChar_of_not_mem ':' name.data h]

/-- No building name in the catalog contains a colon (so every combination
key re-parses to the pair it was built from). -/
def namesColonFree (defs : BuildingDefinitions) : Prop :=
  ∀ n ∈ catalogNames defs, ':' ∉ n.data

theorem name_mem_catalogNames (defs : BuildingDefinitions) (v : Variant)
    (hv : v ∈ buildVariantsFromDefinitions defs) : v.name ∈ catalogNames defs := by
  obtain ⟨p, hp, hvp⟩ := (mem_buildVariants defs v).mp hv
  rw [(expandBuilding_fields p.1 p.2.1 p.2.2 v hvp).1]
  exact List.mem_map_of_mem _ hp

theorem lookupSize_eq (defs : BuildingDefinitions)
    (h : (catalogNames defs).Nodup) (v : Variant)
    (hv : v ∈ buildVariantsFromDefinitions defs) (hcf : ':' ∉ v.name.data) :
    lookupSize (buildVariantsFromDefinitions defs) (v.name, v.level) = v.size := by
  unfold lookupSize
  dsimp only
  rw [parseComboKey_of_colonFree v.name v.level hcf]
  dsimp only
  cases hf : (buildVariantsFromDefinitions defs).find?
      (fun x => x.name = v.name ∧ x.level = v.level) with
  | none =>
    have := List.find?_eq_none.mp hf v hv
    simp at this
  | some u =>
    have hum := List.mem_of_find?_eq_some hf
    have hpu := List.find?_some hf
    simp only [decide_eq_true_eq, Bool.and_eq_true] at hpu
    exact sameName_sameSize defs h u v hum hv (by exact_mod_cast hpu.1)


def sumCounts (f : String × ℚ → ℚ) (m : List ((String × ℚ) × Nat)) : ℚ :=
  (m.map (fun e => f e.1 * (e.2 : ℚ))).sum

def countsKeysNodup (m : List ((String × ℚ) × Nat)) : Prop :=
  (m.map Prod.fst).Nodup

theorem bumpCount_cons_ne (e : (String × ℚ) × Nat)
    (rest : List ((String × ℚ) × Nat)) (k : String × ℚ) (h : e.1 ≠ k) :
    bumpCount (e :: rest) k = e :: bumpCount rest k := by
  unfold bumpCount
  rw [List.find?_cons_of_neg _ (by simpa using h)]
  split
  · rw [List.map_cons, if_neg h]
  · rfl

theorem bumpCount_cons_eq (e : (String × ℚ) × Nat)
    (rest : List ((String × ℚ) × Nat)) (k : String × ℚ) (he : e.1 = k)
    (hrest : k ∉ rest.map Prod.fst) :
    bumpCount (e :: rest) k = (k, e.2 + 1) :: rest := by
  unfold bumpCount
  rw [List.find?_cons_of_pos _ (by simpa using he)]
  simp only [Option.isSome_some, if_pos]
  rw [List.map_cons, if_pos he]
  congr 1
  · rw [he]
  · have hid : ∀ x ∈ rest, (if x.1 = k then (x.1, x.2 + 1) else x) = id x := by
      intro x hx
      rw [id_eq, if_neg]
      intro hc
      exact hrest (hc ▸ List.mem_map_of_mem Prod.fst hx)
    rw [List.map_congr_left hid, List.map_id]

theorem bumpCount_keys (m : List ((String × ℚ) × Nat)) (k : String × ℚ) :
    (bumpCount m k).map Prod.fst = m.map Prod.fst ∨
      ((bumpCount m k).map Prod.fst = m.map Prod.fst ++ [k] ∧ k ∉ m.map Prod.fst) := by
  unfold bumpCount
  split
  case isTrue hs =>
    left
    rw [List.map_map]
    refine List.map_congr_left ?_
    intro e _
    by_cases he : e.1 = k
    · simp [Function.comp, he]
    · simp [Function.comp, he]
  case isFalse hs =>
    right
    constructor
    · simp
    · intro hc
      obtain ⟨e, he, hek⟩ := List.mem_map.mp hc
      have : (m.find? (fun x => x.1 = k)).isSome := by
        rw [List.find?_isSome]
        exact ⟨e, he, by simpa using hek⟩
      exact hs this

theorem bumpCount_keysNodup (m : List ((String × ℚ) × Nat)) (k : String × ℚ)
    (h : countsKeysNodup m) : countsKeysNodup (bumpCount m k) := by
  unfold countsKeysNodup at *
  rcases bumpCount_keys m k with he | ⟨he, hk⟩
  · rw [he]; exact h
  · rw [he, List.nodup_append]
    refine ⟨h, List.nodup_singleton k, ?_⟩
    intro a ha hb
    rw [List.mem_singleton] at hb
    exact hk (hb ▸ ha)

theorem sumCounts_bump (f : String × ℚ → ℚ) :
    ∀ (m : List ((String × ℚ) × Nat)) (k : String × ℚ), countsKeysNodup m →
      sumCounts f (bumpCount m k) = sumCounts f m + f k
  | [], k, _ => by
    simp [bumpCount, sumCounts]
  | e :: rest, k, h => by
    have hrest : countsKeysNodup rest := by
      unfold countsKeysNodup at *
      exact (List.nodup_cons.mp h).2
    by_cases he : e.1 = k
    · have hkrest : k ∉ rest.map Prod.fst := by
        have := (List.nodup_cons.mp h).1
        rw [he] at this
        exact this
      rw [bumpCount_cons_eq e rest k he hkrest]
      unfold sumCounts
      simp only [List.map_cons, List.sum_cons]
      rw [← he]
      push_cast
      ring
    · rw [bumpCount_cons_ne e rest k he]
      have hr := sumCounts_bump f rest k hrest
      unfold sumCounts at *
      simp only [List.map_cons, List.sum_cons]
      rw [hr]
      ring

theorem countsOf_sum_gen (f : String × ℚ → ℚ) :
    ∀ (seq : List Variant) (m : List ((String × ℚ) × Nat)), countsKeysNodup m →
      sumCounts f (seq.foldl (fun m2 v => bumpCount m2 (v.name, v.level)) m) =
        sumCounts f m + (seq.map (fun v => f (v.name, v.level))).sum
  | [], m, _ => by simp
  | v :: rest, m, h => by
    rw [List.foldl_cons, countsOf_sum_gen f rest _ (bumpCount_keysNodup _ _ h),
      sumCounts_bump f m _ h]
    simp only [List.map_cons, List.sum_cons]
    ring

theorem countsOf_sum (f : String × ℚ → ℚ) (seq : List Variant) :
    sumCounts f (countsOf seq) = (seq.map (fun v => f (v.name, v.level))).sum := by
  unfold countsOf
  rw [countsOf_sum_gen f seq [] (by simp [countsKeysNodup])]
  simp [sumCounts]

theorem mapM_comboSizeSum (variants : List Variant) :
    ∀ (l : List ((String × ℚ) × Nat)) (combo : List ComboItem),
      l.mapM (mkComboItem variants) = some combo →
      comboSizeSum combo = sumCounts (lookupSize variants) l
  | [], combo, h => by
    rw [List.mapM_nil] at h
    cases h
    simp [comboSizeSum, sumCounts]
  | e :: rest, combo, h => by
    rw [List.mapM_cons] at h
    cases hi : mkComboItem variants e with
    | none => rw [hi] at h; exact absurd h (by simp)
    | some item =>
      rw [hi] at h
      cases hr : rest.mapM (mkComboItem variants) with
      | none => rw [hr] at h; exact absurd h (by simp)
      | some tail =>
        rw [hr] at h
        simp only [Option.bind_eq_bind, Option.bind_some, Option.some_bind] at h
        cases h
        have := mapM_comboSizeSum variants rest tail hr
        unfold comboSizeSum sumCounts at *
        simp only [List.map_cons, List.sum_cons]
        rw [this]
        congr 1
        unfold mkComboItem at hi
        unfold lookupSize
        rcases hp : parseComboKey e.1.1 e.1.2 with ⟨pn, plv⟩
        rw [hp] at hi
        cases plv with
        | none =>
          dsimp only at hi
          exact absurd hi (by simp)
        | some lv =>
          dsimp only at hi ⊢
          cases hf : variants.find? (fun x => x.name = pn ∧ x.level = lv) with
          | none =>
            rw [hf] at hi
            exact absurd hi (by simp)
          | some u =>
            rw [hf] at hi
            cases hi
            rfl

theorem block_comboSizeSum_le (defs : BuildingDefinitions) (sizeLimit : ℚ)
    (opts : OptimizeOpts) (r : BlockResult)
    (hnames : (catalogNames defs).Nodup) (hcf : namesColonFree defs)
    (hC : 0 ≤ sizeLimit)
    (hok : optimizeBlockIncomeFromDefinitions defs sizeLimit opts = .ok r) :
    comboSizeSum r.combination ≤ sizeLimit := by
  unfold optimizeBlockIncomeFromDefinitions at hok
  dsimp only at hok
  split at hok
  · exact absurd hok (by simp)
  rename_i dp hdp
  split at hok
  · exact absurd hok (by simp)
  rename_i hguard
  split at hok
  · exact absurd hok (by simp)
  rename_i chosen hbw
  split at hok
  · exact absurd hok (by simp)
  rename_i combo hcomb
  cases hok
  have hdpok := runDP_DPOK (mkCtx defs sizeLimit opts) dp hdp
  have hsel := selectBest_bounds (mkCtx defs sizeLimit opts) dp
  have hchosen : (chosen.map (fun v => v.size)).sum ≤
      (((mkCtx defs sizeLimit opts).capacity : Nat) : ℚ) := by
    by_cases hm : (mkCtx defs sizeLimit opts).requiredMask ≠ 0
    · rw [if_pos hm, if_pos hm] at hbw
      have hkey : (selectBest (mkCtx defs sizeLimit opts) dp).bestWithAllKey.isSome := by
        rcases h : (selectBest (mkCtx defs sizeLimit opts) dp).bestWithAllKey with _ | k
        · exact absurd ⟨hm, by rw [h]; rfl⟩ hguard
        · rfl
      have hb := hsel.2 hkey
      have hsum := backWalk_sum (mkCtx defs sizeLimit opts) dp hdpok _ _ _ chosen hb.1 hbw
      have hle : (((selectBest (mkCtx defs sizeLimit opts) dp).bestWithAllW : Int) : ℚ) ≤
          (((mkCtx defs sizeLimit opts).capacity : Nat) : ℚ) := by
        exact_mod_cast hb.2
      linarith [hsum, hle]
    · rw [if_neg hm, if_neg hm] at hbw
      have hsum := backWalk_sum (mkCtx defs sizeLimit opts) dp hdpok _ _ _ chosen
        (Int.ofNat_nonneg _) hbw
      have hle : ((((selectBest (mkCtx defs sizeLimit opts) dp).bestW : Nat) : Int) : ℚ) ≤
          (((mkCtx defs sizeLimit opts).capacity : Nat) : ℚ) := by
        exact_mod_cast hsel.1
      have hsum2 : (chosen.map (fun v => v.size)).sum ≤
          ((((selectBest (mkCtx defs sizeLimit opts) dp).bestW : Nat) : Int) : ℚ) := by
        exact_mod_cast hsum
      linarith [hsum2, hle]
  have hcap : ((((mkCtx defs sizeLimit opts).capacity : Nat)) : ℚ) ≤ sizeLimit := by
    have he : (mkCtx defs sizeLimit opts).capacity = (max 0 (jsFloor sizeLimit)).toNat := rfl
    rw [he]
    exact capacity_le_sizeLimit sizeLimit hC
  unfold combinationOf at hcomb
  have h1 := mapM_comboSizeSum (mkCtx defs sizeLimit opts).variants _ _ hcomb
  have h2 := countsOf_sum (lookupSize (mkCtx defs sizeLimit opts).variants) chosen.reverse
  have hmemv : ∀ v ∈ chosen.reverse, v ∈ (mkCtx defs sizeLimit opts).variants := by
    intro v hv
    exact backWalk_mem (mkCtx defs sizeLimit opts) dp _ _ _ chosen hbw v
      (List.mem_reverse.mp hv)
  have hvariants : (mkCtx defs sizeLimit opts).variants = buildVariantsFromDefinitions defs := rfl
  have h3 : (chosen.reverse.map
        (fun v => lookupSize (mkCtx defs sizeLimit opts).variants (v.name, v.level))).sum =
      (chosen.reverse.map (fun v => v.size)).sum := by
    refine congrArg List.sum (List.map_congr_left ?_)
    intro v hv
    rw [hvariants]
    exact lookupSize_eq defs hnames v (hvariants ▸ hmemv v hv)
      (hcf v.name (name_mem_catalogNames defs v (hvariants ▸ hmemv v hv)))
  have h4 : (chosen.reverse.map (fun v => v.size)).sum =
      (chosen.map (fun v => v.size)).sum := by
    rw [List.map_reverse, List.sum_reverse]
  dsimp only
  linarith [h1, h2, h3, h4, hchosen, hcap]

theorem catalogNames_strip (defs : BuildingDefinitions) :
    catalogNames (stripMiscMandatory defs) = catalogNames defs := by
  unfold catalogNames flatBuildings stripMiscMandatory
  dsimp only
  induction defs.buildingTypes with
  | nil => rfl
  | cons tg rest ih =>
    rw [List.map_cons, List.flatMap_cons, List.flatMap_cons, List.map_append,
      List.map_append, ih]
    congr 1
    by_cases h : tg.1 = "misc"
    · rw [if_pos h]
      dsimp only
      rw [List.map_map, List.map_map, List.map_map]
      rfl
    · rw [if_neg h]

theorem driverLoop_sizes (defs : BuildingDefinitions) (numBlocks : Nat)
    (sizeLimit : ℚ) (opts : OptimizeOpts) (mand : List Variant)
    (resSize resInc : ℚ) (hnames : (catalogNames defs).Nodup)
    (hcf : namesColonFree defs) (hC : 0 ≤ sizeLimit)
    (hres : resSize ≤ sizeLimit) (hmand : (mand.map (fun v => v.size)).sum = resSize) :
    ∀ (rem : Nat) (aggS : Res4) (acc : List BlockEntry) (aggI : ℚ) (res : MultiResult),
      (∀ b ∈ acc, comboSizeSum b.combination ≤ sizeLimit) →
      driverLoop defs numBlocks sizeLimit opts mand resSize resInc rem aggS acc aggI =
        .ok res →
      ∀ b ∈ res.blocks, comboSizeSum b.combination ≤ sizeLimit
  | 0, aggS, acc, aggI, res, hacc, hrun => by
    rw [driverLoop] at hrun
    cases hrun
    exact hacc
  | rem + 1, aggS, acc, aggI, res, hacc, hrun => by
    rw [driverLoop.eq_def] at hrun
    dsimp only at hrun
    split at hrun
    · exact absurd hrun (by simp)
    · exact absurd hrun (by simp)
    rename_i blockResult hblock
    have hstrip : (catalogNames (stripMiscMandatory defs)).Nodup := by
      rw [catalogNames_strip]
      exact hnames
    have hstripcf : namesColonFree (stripMiscMandatory defs) := by
      unfold namesColonFree
      rw [catalogNames_strip]
      exact hcf
    refine driverLoop_sizes defs numBlocks sizeLimit opts mand resSize resInc
      hnames hcf hC hres hmand rem _ _ _ res ?_ hrun
    intro b hb
    rcases List.mem_append.mp hb with hb | hb
    · exact hacc b hb
    · rw [List.mem_singleton] at hb
      subst hb
      dsimp only
      by_cases hlast : rem = 0
      · rw [if_pos hlast] at hblock
        have hsub := block_comboSizeSum_le (stripMiscMandatory defs)
          (sizeLimit - resSize) _ blockResult hstrip hstripcf (by linarith) hblock
        by_cases hinj : rem = 0 ∧ mand ≠ []
        · rw [if_pos hinj]
          have happ : comboSizeSum (blockResult.combination ++ mand.map injectItem) =
              comboSizeSum blockResult.combination +
                comboSizeSum (mand.map injectItem) := by
            unfold comboSizeSum
            rw [List.map_append, List.sum_append]
          have hinjsum : comboSizeSum (mand.map injectItem) = resSize := by
            unfold comboSizeSum
            rw [List.map_map, ← hmand]
            congr 1
            refine List.map_congr_left ?_
            intro v _
            show (injectItem v).size * ((injectItem v).count : ℚ) = v.size
            simp [injectItem]
          rw [happ, hinjsum]
          linarith [hsub]
        · rw [if_neg hinj]
          have hmnil : mand = [] := by
            by_contra hne
            exact hinj ⟨hlast, hne⟩
          have hz : resSize = 0 := by
            rw [← hmand, hmnil]
            simp
          linarith [hsub]
      · rw [if_neg hlast] at hblock
        have hsub := block_comboSizeSum_le (stripMiscMandatory defs) sizeLimit _
          blockResult hstrip hstripcf hC hblock
        have hinj : ¬(rem = 0 ∧ mand ≠ []) := fun hc => hlast hc.1
        rw [if_neg hinj]
        exact hsub

/-- C3 (amended): when building names are unique across the catalog and
contain no colon (so every combination key survives the `split(":")`
round trip), the sum of `size * count` over every returned block combination
is bounded by the per-block size limit `C`; the last block of a multi-block
run also respects `C` provided the reserved mandatory-misc size does not
exceed `C`. -/
theorem C3_amended_size_budget (defs : BuildingDefinitions) (numBlocks : Nat)
    (sizeLimit : ℚ) (opts : OptimizeOpts) (res : MultiResult)
    (hnames : (catalogNames defs).Nodup) (hcf : namesColonFree defs)
    (hC : 0 ≤ sizeLimit)
    (hres : ((reservationOf defs).map (fun v => v.size)).sum ≤ sizeLimit)
    (hok : optimizeMultipleBlocks defs numBlocks sizeLimit opts = .ok res) :
    ∀ b ∈ res.blocks, comboSizeSum b.combination ≤ sizeLimit := by
  unfold optimizeMultipleBlocks at hok
  split at hok
  · exact absurd hok (by simp)
  split at hok
  · split at hok
    · exact absurd hok (by simp)
    · exact absurd hok (by simp)
    rename_i result hblock
    cases hok
    intro b hb
    dsimp only at hb
    rw [List.mem_singleton] at hb
    subst hb
    dsimp only
    exact block_comboSizeSum_le defs sizeLimit opts result hnames hcf hC hblock
  · dsimp only at hok
    intro b hb
    exact driverLoop_sizes defs numBlocks sizeLimit opts (reservationOf defs) _ _
      hnames hcf hC hres rfl numBlocks ⟨0, 0, 0, 0⟩ [] 0 res
      (by intro b2 hb2; exact absurd hb2 (List.not_mem_nil b2)) hok b hb

set_option maxRecDepth 20000 in
/-- Witness for `C3_amended_size_budget`: the empty catalog, one block,
`C = 0`; every hypothesis holds by evaluation. -/
theorem C3_amended_size_budget_witness :
    (catalogNames (⟨[]⟩ : BuildingDefinitions)).Nodup ∧
    ∀ b ∈ emptyMultiResult.blocks, comboSizeSum b.combination ≤ 0 :=
  ⟨by with_unfolding_all decide,
   C3_amended_size_budget ⟨[]⟩ 1 0 {} emptyMultiResult (by with_unfolding_all decide)
     (by intro n hn; exact absurd hn (List.not_mem_nil n)) (by norm_num)
     (by with_unfolding_all decide)
     (by with_unfolding_all decide)⟩

theorem mem_strip_misc (defs : BuildingDefinitions)
    (p : String × String × BuildingDefinition)
    (hp : p ∈ flatBuildings (stripMiscMandatory defs)) (ht : p.1 = "misc") :
    p.2.2.mandatory = false ∧ ∀ up ∈ p.2.2.upgrades.getD [], up.mandatory = false := by
  unfold flatBuildings stripMiscMandatory at hp
  dsimp only at hp
  rw [List.mem_flatMap] at hp
  obtain ⟨tg, htg, hptg⟩ := hp
  rw [List.mem_map] at htg
  obtain ⟨tg0, htg0, rfl⟩ := htg
  by_cases hm : tg0.1 = "misc"
  · rw [if_pos hm] at hptg
    dsimp only at hptg
    rw [List.mem_map] at hptg
    obtain ⟨bd, hbd, rfl⟩ := hptg
    obtain ⟨bd0, hbd0, rfl⟩ := List.mem_map.mp hbd
    dsimp only
    refine ⟨rfl, ?_⟩
    intro up hup
    cases hu : bd0.2.upgrades with
    | none =>
      rw [hu] at hup
      simp at hup
    | some ups =>
      rw [hu] at hup
      simp only [Option.map_some', Option.getD_some] at hup
      obtain ⟨u0, -, rfl⟩ := List.mem_map.mp hup
      rfl
  · rw [if_neg hm] at hptg
    rw [List.mem_map] at hptg
    obtain ⟨bd, hbd, rfl⟩ := hptg
    exact absurd ht hm

theorem strip_no_mandatory_misc (defs : BuildingDefinitions) :
    ∀ v ∈ buildVariantsFromDefinitions (stripMiscMandatory defs),
      v.type = "misc" → v.mandatory = false := by
  intro v hv htype
  obtain ⟨p, hp, hvp⟩ := (mem_buildVariants _ v).mp hv
  obtain ⟨hn, hs, htp, hm⟩ := expandBuilding_fields p.1 p.2.1 p.2.2 v hvp
  cases hvb : v.mandatory with
  | false => rfl
  | true =>
    have h1 : p.1 = "misc" := by rw [← htp, htype]
    obtain ⟨hd, hups⟩ := mem_strip_misc defs p hp h1
    rcases hm hvb with h2 | ⟨u, hu, hum⟩
    · rw [hd] at h2
      exact absurd h2 (by simp)
    · rw [hups u hu] at hum
      exact absurd hum (by simp)

theorem strip_requiredMask_zero (defs : BuildingDefinitions) (sl : ℚ)
    (o : OptimizeOpts) : (mkCtx (stripMiscMandatory defs) sl o).requiredMask = 0 := by
  have hfil : (buildVariantsFromDefinitions (stripMiscMandatory defs)).filter
      (fun v => v.type = "misc" && v.mandatory) = [] := by
    rw [List.filter_eq_nil_iff]
    intro v hv
    simp only [Bool.and_eq_true, decide_eq_true_eq, not_and]
    intro ht
    rw [strip_no_mandatory_misc defs v hv ht]
    simp
  unfold mkCtx
  dsimp only
  rw [hfil]
  rfl

def BlockShape (defs : BuildingDefinitions) (numBlocks : Nat) (sizeLimit : ℚ)
    (mand : List Variant) (resSize : ℚ) (b : BlockEntry) : Prop :=
  1 ≤ b.blockNumber ∧ b.blockNumber ≤ numBlocks ∧
  ∃ (sub : BlockResult) (o2 : OptimizeOpts),
    optimizeBlockIncomeFromDefinitions (stripMiscMandatory defs)
      (if b.blockNumber = numBlocks then sizeLimit - resSize else sizeLimit) o2 =
        .ok sub ∧
    b.combination =
      (if b.blockNumber = numBlocks ∧ mand ≠ [] then
        sub.combination ++ mand.map injectItem
      else sub.combination) ∧
    b.totalIncome =
      (if b.blockNumber = numBlocks ∧ mand ≠ [] then
        (sub.totalIncome : ℚ) + (mand.map (fun v => v.income)).sum
      else (sub.totalIncome : ℚ))

theorem driverLoop_shape (defs : BuildingDefinitions) (numBlocks : Nat)
    (sizeLimit : ℚ) (opts : OptimizeOpts) (mand : List Variant) (resSize : ℚ) :
    ∀ (rem : Nat) (aggS : Res4) (acc : List BlockEntry) (aggI : ℚ) (res : MultiResult),
      rem ≤ numBlocks →
      (∀ b ∈ acc, BlockShape defs numBlocks sizeLimit mand resSize b) →
      driverLoop defs numBlocks sizeLimit opts mand resSize
        ((mand.map (fun v => v.income)).sum) rem aggS acc aggI = .ok res →
      ∀ b ∈ res.blocks, BlockShape defs numBlocks sizeLimit mand resSize b
  | 0, aggS, acc, aggI, res, hrem, hacc, hrun => by
    rw [driverLoop] at hrun
    cases hrun
    exact hacc
  | rem + 1, aggS, acc, aggI, res, hrem, hacc, hrun => by
    rw [driverLoop.eq_def] at hrun
    dsimp only at hrun
    split at hrun
    · exact absurd hrun (by simp)
    · exact absurd hrun (by simp)
    rename_i blockResult hblock
    refine driverLoop_shape defs numBlocks sizeLimit opts mand resSize
      rem _ _ _ res (by omega) ?_ hrun
    intro b hb
    rcases List.mem_append.mp hb with hb | hb
    · exact hacc b hb
    · rw [List.mem_singleton] at hb
      subst hb
      unfold BlockShape
      dsimp only
      have hbn1 : 1 ≤ numBlocks - rem := by omega
      have hbn2 : numBlocks - rem ≤ numBlocks := by omega
      refine ⟨hbn1, hbn2, blockResult,
        { opts with startingResources := some (res4Add DEFAULT_BASE_RESOURCES aggS) },
        ?_, ?_, ?_⟩
      · by_cases hlast : rem = 0
        · rw [if_pos (by omega : numBlocks - rem = numBlocks)]
          rw [if_pos hlast] at hblock
          exact hblock
        · rw [if_neg (by omega : ¬ numBlocks - rem = numBlocks)]
          rw [if_neg hlast] at hblock
          exact hblock
      · by_cases hlast : rem = 0
        · by_cases hmn : mand ≠ []
          · rw [if_pos ⟨hlast, hmn⟩,
              if_pos ⟨(by omega : numBlocks - rem = numBlocks), hmn⟩]
          · rw [if_neg (fun hc : rem = 0 ∧ mand ≠ [] => hmn hc.2),
              if_neg (fun hc : numBlocks - rem = numBlocks ∧ mand ≠ [] => hmn hc.2)]
        · rw [if_neg (fun hc : rem = 0 ∧ mand ≠ [] => hlast hc.1),
            if_neg (fun hc : numBlocks - rem = numBlocks ∧ mand ≠ [] =>
              hlast (by omega))]
      · by_cases hlast : rem = 0
        · by_cases hmn : mand ≠ []
          · rw [if_pos ⟨hlast, hmn⟩,
              if_pos ⟨(by omega : numBlocks - rem = numBlocks), hmn⟩]
          · rw [if_neg (fun hc : rem = 0 ∧ mand ≠ [] => hmn hc.2),
              if_neg (fun hc : numBlocks - rem = numBlocks ∧ mand ≠ [] => hmn hc.2)]
        · rw [if_neg (fun hc : rem = 0 ∧ mand ≠ [] => hlast hc.1),
            if_neg (fun hc : numBlocks - rem = numBlocks ∧ mand ≠ [] =>
              hlast (by omega))]

/-- C4 (amended): the per-block catalog copy has every misc `mandatory`
flag cleared, so its `requiredMask` is `0` for any subcall; each block of a
multi-block run is an ordinary subcall on the stripped catalog, and exactly
the last block (`blockNumber = numBlocks`) appends the reserved mandatory
misc variants (one `injectItem` each) to its combination, adding the
reserved income. -/
theorem C4_amended_strip_and_inject (defs : BuildingDefinitions) (numBlocks : Nat) (sizeLimit : ℚ)
    (opts : OptimizeOpts) (res : MultiResult) (hN : 2 ≤ numBlocks)
    (hok : optimizeMultipleBlocks defs numBlocks sizeLimit opts = .ok res) :
    (∀ v ∈ buildVariantsFromDefinitions (stripMiscMandatory defs),
        v.type = "misc" → v.mandatory = false) ∧
    (∀ (sl : ℚ) (o : OptimizeOpts),
        (mkCtx (stripMiscMandatory defs) sl o).requiredMask = 0) ∧
    (∀ b ∈ res.blocks,
        BlockShape defs numBlocks sizeLimit (reservationOf defs)
          (((reservationOf defs).map (fun v => v.size)).sum) b) := by
  refine ⟨strip_no_mandatory_misc defs, strip_requiredMask_zero defs, ?_⟩
  unfold optimizeMultipleBlocks at hok
  split at hok
  · rename_i h
    exact absurd h (by omega)
  split at hok
  · rename_i h
    exact absurd h (by omega)
  dsimp only at hok
  exact driverLoop_shape defs numBlocks sizeLimit opts (reservationOf defs) _
    numBlocks ⟨0, 0, 0, 0⟩ [] 0 res (le_refl _)
    (by intro b hb; exact absurd hb (List.not_mem_nil b)) hok

def emptyTwoBlockResult : MultiResult :=
  { blocks := [{ blockNumber := 1
                 combination := []
                 totalIncome := 0
                 averageEfficiencyByType := []
                 totalSize := 0
                 blockStorage := ⟨0, 0, 0, 0⟩ },
               { blockNumber := 2
                 combination := []
                 totalIncome := 0
                 averageEfficiencyByType := []
                 totalSize := 0
                 blockStorage := ⟨0, 0, 0, 0⟩ }]
    aggregateTotalIncome := 0
    aggregateTotalStorage := ⟨1000, 100, 100, 100⟩
    baseStorage := DEFAULT_BASE_RESOURCES }

set_option maxRecDepth 20000 in
/-- Witness for `C4_amended_strip_and_inject`: the empty catalog over two
blocks. -/
theorem C4_amended_strip_and_inject_witness :
    (∀ v ∈ buildVariantsFromDefinitions (stripMiscMandatory (⟨[]⟩ : BuildingDefinitions)),
        v.type = "misc" → v.mandatory = false) ∧
    (∀ (sl : ℚ) (o : OptimizeOpts),
        (mkCtx (stripMiscMandatory (⟨[]⟩ : BuildingDefinitions)) sl o).requiredMask = 0) ∧
    (∀ b ∈ emptyTwoBlockResult.blocks,
        BlockShape ⟨[]⟩ 2 0 (reservationOf ⟨[]⟩)
          (((reservationOf ⟨[]⟩).map (fun v => v.size)).sum) b) :=
  C4_amended_strip_and_inject ⟨[]⟩ 2 0 {} emptyTwoBlockResult (by decide)
    (by with_unfolding_all decide)
